import Mathlib

/-!
Verification of the Chinese natural-language time parser
(`time_parser.py` of astrbot_plugin_todo).

The parser is shallowly embedded: Python `datetime` values become the
`DateTime` structure below, `re` matching is hand-translated matcher by
matcher (anchored `re.match` vs scanning `re.search`, greedy runs with
the backtracking the concrete patterns need), and every operation that
can raise in Python (`datetime.replace`, `datetime(...)`, `+ timedelta`)
returns an `Option`; an uncaught exception surfaces as `PyResult.raised`.
Strings are modelled as `List Char`.
-/

namespace TimeParser

/-- Model of a Python `datetime`: year/month/day/hour/minute/second and
microsecond, no timezone. Validity is tracked separately by `ValidB`. -/
structure DateTime where
  year : Nat
  month : Nat
  day : Nat
  hour : Nat
  minute : Nat
  second : Nat
  microsecond : Nat
deriving DecidableEq, Repr

/-- Outcome of a Python call that may return a datetime, return `None`,
or raise an uncaught exception. -/
inductive PyResult where
  | raised : PyResult
  | none : PyResult
  | val : DateTime → PyResult
deriving DecidableEq, Repr

/-- Lift an `Option` coming from a raising operation: Python raises
where the model returns `Option.none`. -/
def liftRaise : Option DateTime → PyResult
  | Option.none => .raised
  | Option.some d => .val d

/-- Gregorian leap year, as Python's `calendar`/`datetime` use it. -/
def isLeap (y : Nat) : Prop := (y % 4 = 0 ∧ y % 100 ≠ 0) ∨ y % 400 = 0

instance (y : Nat) : Decidable (isLeap y) := by unfold isLeap; infer_instance

/-- Days in a month of a given year (Gregorian). -/
def daysInMonth (y m : Nat) : Nat :=
  if m = 2 then (if isLeap y then 29 else 28)
  else if m = 4 ∨ m = 6 ∨ m = 9 ∨ m = 11 then 30
  else 31

theorem daysInMonth_pos (y m : Nat) : 1 ≤ daysInMonth y m := by
  unfold daysInMonth; split_ifs <;> omega

theorem daysInMonth_le (y m : Nat) : daysInMonth y m ≤ 31 := by
  unfold daysInMonth; split_ifs <;> omega

/-- Field-wise well-formedness without the upper year bound (used while
stepping a date forward day by day). -/
def FieldsOk (d : DateTime) : Prop :=
  1 ≤ d.year ∧ 1 ≤ d.month ∧ d.month ≤ 12 ∧ 1 ≤ d.day ∧
  d.day ≤ daysInMonth d.year d.month ∧ d.hour ≤ 23 ∧ d.minute ≤ 59 ∧
  d.second ≤ 59 ∧ d.microsecond ≤ 999999

instance (d : DateTime) : Decidable (FieldsOk d) := by unfold FieldsOk; infer_instance

/-- Well-formedness of a model value as a real Python `datetime`:
fields in range and year within 1..9999. -/
def ValidB (d : DateTime) : Bool := decide (FieldsOk d ∧ d.year ≤ 9999)

/-- Successor day with Gregorian month/year rollover. -/
def nextDay (d : DateTime) : DateTime :=
  if d.day < daysInMonth d.year d.month then { d with day := d.day + 1 }
  else if d.month < 12 then { d with month := d.month + 1, day := 1 }
  else { d with year := d.year + 1, month := 1, day := 1 }

/-- Model of `dt + timedelta(days=n)` for nonnegative `n`: steps the
calendar forward `n` days and, like Python, fails (OverflowError) when
the result would pass year 9999. -/
def addDays (d : DateTime) (n : Nat) : Option DateTime :=
  let r := Nat.iterate nextDay n d
  if r.year ≤ 9999 then some r else Option.none

/-- Model of `dt + timedelta(hours=n)`, `n ≥ 0`. -/
def addHours (d : DateTime) (n : Nat) : Option DateTime :=
  let t := d.hour + n
  addDays { d with hour := t % 24 } (t / 24)

/-- Model of `dt + timedelta(minutes=n)`, `n ≥ 0`. -/
def addMinutes (d : DateTime) (n : Nat) : Option DateTime :=
  let t := d.minute + n
  addHours { d with minute := t % 60 } (t / 60)

/-- Python `datetime` comparison is lexicographic on all fields. -/
def dtLt (a b : DateTime) : Bool :=
  if a.year ≠ b.year then decide (a.year < b.year)
  else if a.month ≠ b.month then decide (a.month < b.month)
  else if a.day ≠ b.day then decide (a.day < b.day)
  else if a.hour ≠ b.hour then decide (a.hour < b.hour)
  else if a.minute ≠ b.minute then decide (a.minute < b.minute)
  else if a.second ≠ b.second then decide (a.second < b.second)
  else decide (a.microsecond < b.microsecond)

/-- Python `a <= b` on datetimes (total order, so `¬ (b < a)`). -/
def dtLe (a b : DateTime) : Bool := ! dtLt b a

/-- Model of `datetime(y, mo, dy, h, mi, s)`: validates every field the
way the CPython constructor does, returning `none` for `ValueError`. -/
def mkDT (y mo dy h mi s : Nat) : Option DateTime :=
  if 1 ≤ y ∧ y ≤ 9999 ∧ 1 ≤ mo ∧ mo ≤ 12 ∧ 1 ≤ dy ∧ dy ≤ daysInMonth y mo ∧
      h ≤ 23 ∧ mi ≤ 59 ∧ s ≤ 59 then
    some ⟨y, mo, dy, h, mi, s, 0⟩
  else Option.none

/-- Model of `base.replace(month=mo, day=dy, hour=0, minute=0, second=0,
microsecond=0)`: the constructor re-validates the new month/day against
the (already valid) year of `base`. -/
def replaceMD (base : DateTime) (mo dy : Nat) : Option DateTime :=
  if 1 ≤ mo ∧ mo ≤ 12 ∧ 1 ≤ dy ∧ dy ≤ daysInMonth base.year mo then
    some ⟨base.year, mo, dy, 0, 0, 0, 0⟩
  else Option.none

/-- Model of `d.replace(year=y)`: re-validates the year range and the
existing day against the new year (Feb 29 can fail here). -/
def replaceYear (d : DateTime) (y : Nat) : Option DateTime :=
  if 1 ≤ y ∧ y ≤ 9999 ∧ d.day ≤ daysInMonth y d.month then
    some { d with year := y }
  else Option.none

/-- Model of `d.replace(hour=h, minute=mi)` (seconds untouched). -/
def replaceHM (d : DateTime) (h mi : Nat) : Option DateTime :=
  if h ≤ 23 ∧ mi ≤ 59 then some { d with hour := h, minute := mi } else Option.none

/-- Model of `d.replace(hour=h, minute=mi, second=0, microsecond=0)`. -/
def replaceHMS0 (d : DateTime) (h mi : Nat) : Option DateTime :=
  if h ≤ 23 ∧ mi ≤ 59 then
    some { d with hour := h, minute := mi, second := 0, microsecond := 0 }
  else Option.none

/-- Model of `base.replace(hour=0, minute=0, second=0, microsecond=0)`,
which never raises on a real datetime. -/
def midnightOf (base : DateTime) : DateTime :=
  { base with hour := 0, minute := 0, second := 0, microsecond := 0 }

/-- Days elapsed since 0001-01-01 (proleptic Gregorian), so that
`ordinal0 1 1 1 = 0`. -/
def ordinal0 (y m d : Nat) : Nat :=
  let py := y - 1
  let beforeMonth : Nat :=
    (if m ≤ 1 then 0 else if m = 2 then 31 else if m = 3 then 59
     else if m = 4 then 90 else if m = 5 then 120 else if m = 6 then 151
     else if m = 7 then 181 else if m = 8 then 212 else if m = 9 then 243
     else if m = 10 then 273 else if m = 11 then 304 else 334)
    + (if 3 ≤ m ∧ isLeap y then 1 else 0)
  365 * py + py / 4 - py / 100 + py / 400 + beforeMonth + (d - 1)

/-- Model of Python `datetime.weekday()`: Monday = 0 .. Sunday = 6
(0001-01-01 was a Monday in the proleptic Gregorian calendar). -/
def pyWeekday (d : DateTime) : Nat := ordinal0 d.year d.month d.day % 7

/-- Python whitespace (the ASCII part of `str.strip` / `\s`). -/
def isSp (c : Char) : Bool :=
  c = ' ' ∨ c = '\t' ∨ c = '\n' ∨ c = '\x0d' ∨ c = '\x0b' ∨ c = '\x0c'

/-- Model of `str.strip()`. -/
def pyStrip (cs : List Char) : List Char :=
  ((cs.dropWhile isSp).reverse.dropWhile isSp).reverse

/-- Numeric value of an ASCII digit character. -/
def charDigit (c : Char) : Nat := c.toNat - 48

/-- Value of a nonempty ASCII digit string, as Python `int(...)`. -/
def natOfDigits (ds : List Char) : Nat :=
  ds.foldl (fun a c => a * 10 + charDigit c) 0

/-- The `CN_NUM_MAP` table of `time_parser.py`. -/
def CN_NUM_MAP (c : Char) : Option Nat :=
  if c = '零' ∨ c = '〇' then some 0
  else if c = '一' ∨ c = '壹' then some 1
  else if c = '二' ∨ c = '两' ∨ c = '贰' then some 2
  else if c = '三' ∨ c = '叁' then some 3
  else if c = '四' ∨ c = '肆' then some 4
  else if c = '五' ∨ c = '伍' then some 5
  else if c = '六' ∨ c = '陆' then some 6
  else if c = '七' ∨ c = '柒' then some 7
  else if c = '八' ∨ c = '捌' then some 8
  else if c = '九' ∨ c = '玖' then some 9
  else if c = '十' ∨ c = '拾' then some 10
  else Option.none

/-- The `WEEKDAY_MAP` table of `time_parser.py` (Monday = 0). -/
def WEEKDAY_MAP (c : Char) : Option Nat :=
  if c = '一' then some 0 else if c = '二' then some 1
  else if c = '三' then some 2 else if c = '四' then some 3
  else if c = '五' then some 4 else if c = '六' then some 5
  else if c = '日' ∨ c = '天' then some 6 else Option.none

/-- Python `str.split(sep)` restricted to what `cn_to_int` reads:
`parts[0]` (before the first separator) and `parts[1]` (between the
first and second separator). The separator is known to occur. -/
def splitPart0 (sep : Char) (cs : List Char) : List Char :=
  cs.takeWhile (fun c => ! (c = sep : Bool))

/-- The `parts[1]` segment of `str.split(sep)`. -/
def splitPart1 (sep : Char) (cs : List Char) : List Char :=
  (cs.drop ((splitPart0 sep cs).length + 1)).takeWhile (fun c => ! (c = sep : Bool))

/-- Lookup `CN_NUM_MAP.get(part, dflt)` where `part` is a split segment: only a
single mapped character is a key of the table. -/
def partGet (part : List Char) (dflt : Nat) : Nat :=
  match part with
  | [c] => (CN_NUM_MAP c).getD dflt
  | _ => dflt

/-- The tens value `cn_to_int` computes for a ten-containing token:
`parts[0]` looked up with default 1, and 1 when `parts[0]` is empty. -/
def tensOf (sep : Char) (cs : List Char) : Nat :=
  let p := splitPart0 sep cs
  if p = [] then 1 else partGet p 1

/-- The ones value `cn_to_int` computes for a ten-containing token:
`parts[1]` looked up with default 0, and 0 when `parts[1]` is empty. -/
def onesOf (sep : Char) (cs : List Char) : Nat :=
  let p := splitPart1 sep cs
  if p = [] then 0 else partGet p 0

/-- The separator `cn_to_int` splits on: `十` when present, else `拾`. -/
def tenSep (cs : List Char) : Char := if '十' ∈ cs then '十' else '拾'

/-- Left-to-right base-10 accumulation over mapped characters; `none` on
any unrecognized character (the final fallback of `cn_to_int`). -/
def cnAccum (cs : List Char) (acc : Nat) : Option Nat :=
  match cs with
  | [] => some acc
  | c :: rest =>
    match CN_NUM_MAP c with
    | some v => cnAccum rest (acc * 10 + v)
    | Option.none => Option.none

/-- Model of `cn_to_int`: digits parse as decimal; a single mapped
character returns its table value; a ten-containing token splits into
tens and ones; otherwise digitwise accumulation; a computed value of 0
from the composite paths is reported as `None`. -/
def cn_to_int (cs : List Char) : Option Nat :=
  match cs with
  | [] => Option.none
  | _ =>
    if cs.all Char.isDigit then some (natOfDigits cs)
    else
      match cs with
      | [c] =>
        match CN_NUM_MAP c with
        | some v => some v
        | Option.none => cnTen cs
      | _ => cnTen cs
where
  /-- The ten-splitting and accumulation tail of `cn_to_int`, including
  the final positivity guard. -/
  cnTen (cs : List Char) : Option Nat :=
    if '十' ∈ cs ∨ '拾' ∈ cs then
      let sep := tenSep cs
      let r := tensOf sep cs * 10 + onesOf sep cs
      if 0 < r then some r else Option.none
    else
      match cnAccum cs 0 with
      | some r => if 0 < r then some r else Option.none
      | Option.none => Option.none

/-- Option alternative with transparent unfolding (avoids typeclass
indirection in proofs). -/
def opOr {α : Type} (a b : Option α) : Option α :=
  match a with
  | some x => some x
  | Option.none => b

/-- Model of `re.search`: try the at-position matcher at every position,
left to right. -/
def searchPos {α : Type} (f : List Char → Option α) : List Char → Option α
  | [] => f []
  | c :: rest => opOr (f (c :: rest)) (searchPos f (rest))

/-- First word of `ws` that is a prefix at this position (regex
alternation order). -/
def pickWord (ws : List (List Char)) (s : List Char) : Option (List Char) :=
  match ws with
  | [] => Option.none
  | w :: rest => if w.isPrefixOf s then some w else pickWord rest s

/-- Search (`re.search`) for a fixed-word alternation; returns the matched word. -/
def findWord (ws : List (List Char)) (cs : List Char) : Option (List Char) :=
  searchPos (pickWord ws) cs

/-- Substring containment, as Python `w in text`. -/
def containsSub (w : List Char) (cs : List Char) : Bool :=
  (findWord [w] cs).isSome

/-- Consume `\s*` then a required literal character. -/
def mSpacesThen (t : Char) : List Char → Option (List Char)
  | [] => Option.none
  | c :: r => if isSp c then mSpacesThen t r else if c = t then some r else Option.none

/-- The numeral class of the `N天后` pattern: `[一二三四五六七八九十百]`. -/
def isCnDayChar (c : Char) : Bool :=
  c = '一' ∨ c = '二' ∨ c = '三' ∨ c = '四' ∨ c = '五' ∨ c = '六' ∨
  c = '七' ∨ c = '八' ∨ c = '九' ∨ c = '十' ∨ c = '百'

/-- The hour numeral class of the Chinese time pattern:
`[一二三四五六七八九十两]`. -/
def isCnHourChar (c : Char) : Bool :=
  c = '一' ∨ c = '二' ∨ c = '三' ∨ c = '四' ∨ c = '五' ∨ c = '六' ∨
  c = '七' ∨ c = '八' ∨ c = '九' ∨ c = '十' ∨ c = '两'

/-- The minute numeral class of the Chinese time pattern:
`[一二三四五六七八九十]`. -/
def isCnMinChar (c : Char) : Bool :=
  c = '一' ∨ c = '二' ∨ c = '三' ∨ c = '四' ∨ c = '五' ∨ c = '六' ∨
  c = '七' ∨ c = '八' ∨ c = '九' ∨ c = '十'

/-- Anchored match of `(\d+|[一二三四五六七八九十百]+)\s*[天日]后`;
returns (group 1, group 0). A greedy run suffices: the freed characters
of a shorter run could never match `\s`, `天` or `日`. -/
def matchDaysLaterAt (s : List Char) : Option (List Char × List Char) :=
  match s with
  | [] => Option.none
  | c :: _ =>
    let run :=
      if c.isDigit then s.takeWhile Char.isDigit
      else if isCnDayChar c then s.takeWhile isCnDayChar
      else []
    match run with
    | [] => Option.none
    | _ =>
      let r0 := s.drop run.length
      let sp := r0.takeWhile isSp
      match r0.drop sp.length with
      | u :: rest =>
        if u = '天' ∨ u = '日' then
          match rest with
          | h :: _ => if h = '后' then some (run, run ++ sp ++ [u, '后']) else Option.none
          | [] => Option.none
        else Option.none
      | [] => Option.none

/-- Anchored match of `下周([一二三四五六日天])`; returns group 0. -/
def matchNextWeekAt (s : List Char) : Option (List Char) :=
  match s with
  | a :: b :: c :: _ =>
    if a = '下' ∧ b = '周' ∧ (WEEKDAY_MAP c).isSome then some ['下', '周', c]
    else Option.none
  | _ => Option.none

/-- Anchored match of `(?:这|本)?周([一二三四五六日天])`; returns group 0. -/
def matchThisWeekAt (s : List Char) : Option (List Char) :=
  match s with
  | a :: b :: c :: _ =>
    if (a = '这' ∨ a = '本') ∧ b = '周' ∧ (WEEKDAY_MAP c).isSome then some [a, '周', c]
    else if a = '周' ∧ (WEEKDAY_MAP b).isSome then some ['周', b]
    else Option.none
  | [a, b] =>
    if a = '周' ∧ (WEEKDAY_MAP b).isSome then some ['周', b] else Option.none
  | _ => Option.none

/-- The ordered `date_patterns` search of `parse_time` step 4: the first
pattern with a textual match wins and its group 0 is returned. -/
def dateSearch (cs : List Char) : Option (List Char) :=
  opOr (findWord [['大', '后', '天']] cs) (
  opOr (findWord [['后', '天']] cs) (
  opOr (findWord [['明', '天'], ['明', '日']] cs) (
  opOr (findWord [['今', '天'], ['今', '日']] cs) (
  opOr (searchPos (fun s => (matchDaysLaterAt s).map (fun p => p.2)) cs) (
  opOr (searchPos matchNextWeekAt cs) (
  searchPos matchThisWeekAt cs))))))

/-- Model of `_parse_relative_date`. -/
def parse_relative_date (cs : List Char) (base : DateTime) : PyResult :=
  let today := midnightOf base
  if cs = ['今', '天'] ∨ cs = ['今', '日'] then .val today
  else if cs = ['明', '天'] ∨ cs = ['明', '日'] then liftRaise (addDays today 1)
  else if cs = ['后', '天'] then liftRaise (addDays today 2)
  else if cs = ['大', '后', '天'] then liftRaise (addDays today 3)
  else
    match matchDaysLaterAt cs with
    | some (g1, _) =>
      match cn_to_int g1 with
      | some (n + 1) => liftRaise (addDays today (n + 1))
      | _ => afterDays cs base today
    | Option.none => afterDays cs base today
where
  /-- The `下周X` and `周X` checks that follow the `N天后` branch. -/
  afterDays (cs : List Char) (base : DateTime) (today : DateTime) : PyResult :=
    match cs with
    | a :: b :: rest =>
      if a = '下' ∧ b = '周' then
        match rest with
        | c :: _ =>
          match WEEKDAY_MAP c with
          | some w =>
            let daysAhead : Int := ((w : Int) - (pyWeekday base : Int)) % 7 + 7
            liftRaise (addDays today daysAhead.toNat)
          | Option.none => thisWeek cs base today
        | [] => thisWeek cs base today
      else thisWeek cs base today
    | _ => thisWeek cs base today
  /-- The final `(?:这|本)?周X` check. -/
  thisWeek (cs : List Char) (base : DateTime) (today : DateTime) : PyResult :=
    let wk : Option Char :=
      match cs with
      | a :: b :: c :: _ =>
        if (a = '这' ∨ a = '本') ∧ b = '周' ∧ (WEEKDAY_MAP c).isSome then some c
        else if a = '周' ∧ (WEEKDAY_MAP b).isSome then some b
        else Option.none
      | [a, b] => if a = '周' ∧ (WEEKDAY_MAP b).isSome then some b else Option.none
      | _ => Option.none
    match wk with
    | some c =>
      match WEEKDAY_MAP c with
      | some w =>
        let daysAhead : Int := ((w : Int) - (pyWeekday base : Int)) % 7
        liftRaise (addDays today daysAhead.toNat)
      | Option.none => .none
    | Option.none => .none

/-- At-position match of `(\d{1,2}):(\d{2})` (two digits, then one, as
the regex backtracks). -/
def hhmmAt (s : List Char) : Option (Nat × Nat) :=
  match s with
  | c1 :: r1 =>
    if c1.isDigit then
      opOr
        (match r1 with
         | c2 :: r2 =>
           if c2.isDigit then hhmmTail [c1, c2] r2 else Option.none
         | [] => Option.none)
        (hhmmTail [c1] r1)
    else Option.none
  | [] => Option.none
where
  /-- The `:(\d{2})` tail. -/
  hhmmTail (ds : List Char) (r : List Char) : Option (Nat × Nat) :=
    match r with
    | ':' :: a :: b :: _ =>
      if a.isDigit ∧ b.isDigit then some (natOfDigits ds, natOfDigits [a, b])
      else Option.none
    | _ => Option.none

/-- The period-of-day words, in the regex alternation order
`凌晨|早上|早晨|上午|中午|下午|傍晚|晚上|晚`. -/
def periodWords : List (List Char) :=
  [['凌', '晨'], ['早', '上'], ['早', '晨'], ['上', '午'], ['中', '午'],
   ['下', '午'], ['傍', '晚'], ['晚', '上'], ['晚']]

/-- The optional minute tail `(?:\s*(\d{1,2}|[一..十]+)\s*分?)?(半)?`
after the hour marker; returns (group 2, group 3 matched). -/
def minutePart (r : List Char) : Option (List Char) × Bool :=
  let r3 := r.dropWhile isSp
  let g2 : Option (List Char) :=
    match r3 with
    | c :: _ =>
      if c.isDigit then
        some ((r3.takeWhile Char.isDigit).take 2)
      else if isCnMinChar c then some (r3.takeWhile isCnMinChar)
      else Option.none
    | [] => Option.none
  match g2 with
  | some t =>
    let ra := (r3.drop t.length).dropWhile isSp
    let rb := match ra with
      | '分' :: rest => rest
      | _ => ra
    (some t, match rb with | '半' :: _ => true | _ => false)
  | Option.none =>
    (Option.none, match r with | '半' :: _ => true | _ => false)

/-- The part of the Chinese time pattern after the optional period word:
`\s*(\d{1,2}|[一..十两]+)\s*[点时]` then the minute tail. Digit hours
backtrack from two digits to one against the marker. -/
def cnTimeCore (s : List Char) : Option (List Char × Option (List Char) × Bool) :=
  let s1 := s.dropWhile isSp
  match s1 with
  | c1 :: r1 =>
    if c1.isDigit then
      opOr
        (match r1 with
         | c2 :: r2 => if c2.isDigit then afterHour [c1, c2] r2 else Option.none
         | [] => Option.none)
        (afterHour [c1] r1)
    else if isCnHourChar c1 then
      let run := s1.takeWhile isCnHourChar
      afterHour run (s1.drop run.length)
    else Option.none
  | [] => Option.none
where
  /-- Consume `\s*[点时]` then read the minute tail. -/
  afterHour (g1 : List Char) (r : List Char) :
      Option (List Char × Option (List Char) × Bool) :=
    match mSpacesThen '点' r, mSpacesThen '时' r with
    | some r2, _ => some (g1, minutePart r2)
    | Option.none, some r2 => some (g1, minutePart r2)
    | Option.none, Option.none => Option.none

/-- At-position match of the full Chinese time pattern: the optional
leading period word is tried alternative by alternative (then without),
each continuing into `cnTimeCore`. -/
def cnTimeAt (s : List Char) : Option (List Char × Option (List Char) × Bool) :=
  opOr (tryPeriods periodWords s) (cnTimeCore s)
where
  /-- Period alternatives with backtracking into the core. -/
  tryPeriods (ws : List (List Char)) (s : List Char) :
      Option (List Char × Option (List Char) × Bool) :=
    match ws with
    | [] => Option.none
    | w :: rest =>
      if w.isPrefixOf s then
        opOr (cnTimeCore (s.drop w.length)) (tryPeriods rest s)
      else tryPeriods rest s

/-- Model of `_parse_time_of_day`. -/
def parse_time_of_day (cs : List Char) : Option (Nat × Nat) :=
  match searchPos hhmmAt cs with
  | some (h, mi) =>
    let h :=
      if (containsSub ['下', '午'] cs ∨ containsSub ['晚', '上'] cs ∨
          containsSub ['晚'] cs ∨ containsSub ['傍', '晚'] cs) ∧ h < 12 then h + 12
      else h
    some (h, mi)
  | Option.none =>
    match searchPos cnTimeAt cs with
    | some (g1, g2, g3) =>
      match cn_to_int g1 with
      | Option.none => Option.none
      | some hour0 =>
        let minute : Nat :=
          if g3 then 30
          else match g2 with
            | some t => (cn_to_int t).getD 0
            | Option.none => 0
        let hour :=
          match findWord periodWords cs with
          | some p =>
            if (p = ['下', '午'] ∨ p = ['傍', '晚'] ∨ p = ['晚', '上'] ∨ p = ['晚']) ∧
                hour0 < 12 then hour0 + 12
            else if p = ['中', '午'] ∧ hour0 = 12 then hour0
            else if p = ['凌', '晨'] ∧ hour0 = 12 then 0
            else hour0
          | Option.none => hour0
        some (hour, minute)
    | Option.none => Option.none

/-- Read exactly four ASCII digits (the `%Y` of CPython strptime). -/
def read4Digits (cs : List Char) : Option (Nat × List Char) :=
  match cs with
  | a :: b :: c :: d :: r =>
    if a.isDigit ∧ b.isDigit ∧ c.isDigit ∧ d.isDigit then
      some (((charDigit a * 10 + charDigit b) * 10 + charDigit c) * 10 + charDigit d, r)
    else Option.none
  | _ => Option.none

/-- A required literal character, continuation style. -/
def litK {α : Type} (t : Char) (cs : List Char) (k : List Char → Option α) : Option α :=
  match cs with
  | c :: r => if c = t then k r else Option.none
  | [] => Option.none

/-- One or more whitespace characters (`\s+`), continuation style. -/
def spacesK {α : Type} (cs : List Char) (k : List Char → Option α) : Option α :=
  match cs with
  | c :: r => if isSp c then k (r.dropWhile isSp) else Option.none
  | [] => Option.none

/-- strptime `%m` (`1[0-2]|0[1-9]|[1-9]`): two digits forming 1..12,
else one digit 1..9, backtracking through the continuation. -/
def readMonthK {α : Type} (cs : List Char) (k : Nat → List Char → Option α) : Option α :=
  opOr
    (match cs with
     | a :: b :: r =>
       if a.isDigit ∧ b.isDigit ∧ 1 ≤ charDigit a * 10 + charDigit b ∧
           charDigit a * 10 + charDigit b ≤ 12 then
         k (charDigit a * 10 + charDigit b) r
       else Option.none
     | _ => Option.none)
    (match cs with
     | a :: r => if a.isDigit ∧ 1 ≤ charDigit a then k (charDigit a) r else Option.none
     | [] => Option.none)

/-- strptime `%d` (`3[01]|[12]\d|0[1-9]|[1-9]`). -/
def readDayK {α : Type} (cs : List Char) (k : Nat → List Char → Option α) : Option α :=
  opOr
    (match cs with
     | a :: b :: r =>
       if a.isDigit ∧ b.isDigit ∧ 1 ≤ charDigit a * 10 + charDigit b ∧
           charDigit a * 10 + charDigit b ≤ 31 then
         k (charDigit a * 10 + charDigit b) r
       else Option.none
     | _ => Option.none)
    (match cs with
     | a :: r => if a.isDigit ∧ 1 ≤ charDigit a then k (charDigit a) r else Option.none
     | [] => Option.none)

/-- strptime `%H` (`2[0-3]|[0-1]\d|\d`). -/
def readHourK {α : Type} (cs : List Char) (k : Nat → List Char → Option α) : Option α :=
  opOr
    (match cs with
     | a :: b :: r =>
       if a.isDigit ∧ b.isDigit ∧ charDigit a * 10 + charDigit b ≤ 23 then
         k (charDigit a * 10 + charDigit b) r
       else Option.none
     | _ => Option.none)
    (match cs with
     | a :: r => if a.isDigit then k (charDigit a) r else Option.none
     | [] => Option.none)

/-- strptime `%M` (`[0-5]\d|\d`). -/
def readMinK {α : Type} (cs : List Char) (k : Nat → List Char → Option α) : Option α :=
  opOr
    (match cs with
     | a :: b :: r =>
       if a.isDigit ∧ b.isDigit ∧ charDigit a * 10 + charDigit b ≤ 59 then
         k (charDigit a * 10 + charDigit b) r
       else Option.none
     | _ => Option.none)
    (match cs with
     | a :: r => if a.isDigit then k (charDigit a) r else Option.none
     | [] => Option.none)

/-- strptime `%S` (`6[0-1]|[0-5]\d|\d`; leap seconds are rejected later
by the datetime constructor, which `parse_time` catches as a plain
format failure). -/
def readSecK {α : Type} (cs : List Char) (k : Nat → List Char → Option α) : Option α :=
  opOr
    (match cs with
     | a :: b :: r =>
       if a.isDigit ∧ b.isDigit ∧ charDigit a * 10 + charDigit b ≤ 61 then
         k (charDigit a * 10 + charDigit b) r
       else Option.none
     | _ => Option.none)
    (match cs with
     | a :: r => if a.isDigit then k (charDigit a) r else Option.none
     | [] => Option.none)

/-- strptime with format `%Y<sep>%m<sep>%d %H:%M:%S`, full-string match. -/
def fmtFull (sep : Char) (cs : List Char) : Option DateTime :=
  match read4Digits cs with
  | Option.none => Option.none
  | some (y, r) =>
    litK sep r fun r => readMonthK r fun mo r => litK sep r fun r =>
    readDayK r fun dy r => spacesK r fun r => readHourK r fun hh r =>
    litK ':' r fun r => readMinK r fun mi r => litK ':' r fun r =>
    readSecK r fun s r => if r = [] then mkDT y mo dy hh mi s else Option.none

/-- strptime with format `%Y<sep>%m<sep>%d %H:%M`, full-string match. -/
def fmtHM (sep : Char) (cs : List Char) : Option DateTime :=
  match read4Digits cs with
  | Option.none => Option.none
  | some (y, r) =>
    litK sep r fun r => readMonthK r fun mo r => litK sep r fun r =>
    readDayK r fun dy r => spacesK r fun r => readHourK r fun hh r =>
    litK ':' r fun r => readMinK r fun mi r =>
    if r = [] then mkDT y mo dy hh mi 0 else Option.none

/-- strptime with format `%Y<sep>%m<sep>%d`, full-string match. -/
def fmtD (sep : Char) (cs : List Char) : Option DateTime :=
  match read4Digits cs with
  | Option.none => Option.none
  | some (y, r) =>
    litK sep r fun r => readMonthK r fun mo r => litK sep r fun r =>
    readDayK r fun dy r => if r = [] then mkDT y mo dy 0 0 0 else Option.none

/-- Step 1 of `parse_time`: the six strptime formats tried in order,
each `ValueError` falling through to the next. -/
def step1 (cs : List Char) : Option DateTime :=
  opOr (fmtFull '-' cs) (opOr (fmtHM '-' cs) (opOr (fmtD '-' cs)
    (opOr (fmtFull '/' cs) (opOr (fmtHM '/' cs) (fmtD '/' cs)))))

/-- Anchored match of step 2's
`(\d{4})\s*年\s*(\d{1,2})\s*月\s*(\d{1,2})\s*[日号]`; returns
(year, month, day, text after the match). -/
def matchStep2 (cs : List Char) : Option (Nat × Nat × Nat × List Char) :=
  match read4Digits cs with
  | Option.none => Option.none
  | some (y, r) =>
    match mSpacesThen '年' r with
    | Option.none => Option.none
    | some r1 => twoDigitThen r1 fun mo r2 =>
        match mSpacesThen '月' r2 with
        | Option.none => Option.none
        | some r3 => twoDigitThen r3 fun dy r4 =>
            match mSpacesThen '日' r4, mSpacesThen '号' r4 with
            | some r5, _ => some (y, mo, dy, r5)
            | Option.none, some r5 => some (y, mo, dy, r5)
            | Option.none, Option.none => Option.none
where
  /-- Read `(\d{1,2})` with two-then-one backtracking into the continuation. -/
  twoDigitThen {α : Type} (cs : List Char) (k : Nat → List Char → Option α) : Option α :=
    match cs with
    | a :: b :: r =>
      if a.isDigit then
        if b.isDigit then
          opOr (k (charDigit a * 10 + charDigit b) r) (k (charDigit a) (b :: r))
        else k (charDigit a) (b :: r)
      else Option.none
    | [a] => if a.isDigit then k (charDigit a) [] else Option.none
    | [] => Option.none

/-- Anchored match of step 3's `(\d{1,2})\s*月\s*(\d{1,2})\s*[日号]?`;
the trailing `\s*[日号]?` is consumed greedily. Returns
(month, day, text after the match). -/
def matchStep3 (cs : List Char) : Option (Nat × Nat × List Char) :=
  matchStep2.twoDigitThen cs fun mo r =>
    match mSpacesThen '月' r with
    | Option.none => Option.none
    | some r1 =>
      match r1 with
      | d1 :: r2 =>
        if d1.isDigit then
          match r2 with
          | d2 :: r3 =>
            if d2.isDigit then finish mo (charDigit d1 * 10 + charDigit d2) r3
            else finish mo (charDigit d1) r2
          | [] => finish mo (charDigit d1) []
        else Option.none
      | [] => Option.none
where
  /-- Consume `\s*[日号]?` and produce the groups and the rest. -/
  finish (mo dy : Nat) (r : List Char) : Option (Nat × Nat × List Char) :=
    let ra := r.dropWhile isSp
    match ra with
    | c :: rr => if c = '日' ∨ c = '号' then some (mo, dy, rr) else some (mo, dy, ra)
    | [] => some (mo, dy, [])

/-- Body of step 2 once the pattern matched: build the date (an invalid
one raises), then merge a trailing time-of-day if present. -/
def step2go (y mo dy : Nat) (rest : List Char) : PyResult :=
  match mkDT y mo dy 0 0 0 with
  | Option.none => .raised
  | some dp =>
    match parse_time_of_day rest with
    | some (h, mi) => liftRaise (replaceHM dp h mi)
    | Option.none => .val dp

/-- Body of step 3 once the pattern matched: replace month/day at
midnight (invalid raises), roll the year forward when the date is
strictly before base (which may itself raise, e.g. Feb 29), then merge
a trailing time-of-day. -/
def step3go (mo dy : Nat) (rest : List Char) (base : DateTime) : PyResult :=
  match replaceMD base mo dy with
  | Option.none => .raised
  | some dp =>
    let rolled : Option DateTime :=
      if dtLt dp base then replaceYear dp (dp.year + 1) else some dp
    match rolled with
    | Option.none => .raised
    | some dp2 =>
      match parse_time_of_day rest with
      | some (h, mi) => liftRaise (replaceHM dp2 h mi)
      | Option.none => .val dp2

/-- The step-4 date extraction: first textual pattern match is resolved
by `parse_relative_date` and the loop breaks regardless of the outcome. -/
def dateStep (cs : List Char) (base : DateTime) : PyResult :=
  match dateSearch cs with
  | some g0 => parse_relative_date g0 base
  | Option.none => .none

/-- The time-only tail of step 4: base with hour/minute replaced and
seconds zeroed, rolled to the next day when not strictly after base. -/
def timeOnly (base : DateTime) (h mi : Nat) : PyResult :=
  match replaceHMS0 base h mi with
  | Option.none => .raised
  | some r => if dtLe r base then liftRaise (addDays r 1) else .val r

/-- Step 5: `N小时后` and `N分钟后` duration forms. -/
def step5 (cs : List Char) (base : DateTime) : PyResult :=
  match searchPos hoursLaterAt cs with
  | some g1 =>
    match cn_to_int g1 with
    | some (n + 1) => liftRaise (addHours base (n + 1))
    | _ => minutesBranch cs base
  | Option.none => minutesBranch cs base
where
  /-- At-position match of `(\d+|[一..十]+)\s*(?:个)?小时后`; group 1. -/
  hoursLaterAt (s : List Char) : Option (List Char) :=
    match s with
    | [] => Option.none
    | c :: _ =>
      let run :=
        if c.isDigit then s.takeWhile Char.isDigit
        else if isCnMinChar c then s.takeWhile isCnMinChar
        else []
      match run with
      | [] => Option.none
      | _ =>
        let r0 := (s.drop run.length).dropWhile isSp
        let r1 := match r0 with
          | '个' :: rest => rest
          | _ => r0
        match r1 with
        | '小' :: '时' :: '后' :: _ => some run
        | _ => Option.none
  /-- At-position match of `(\d+|[一..十]+)\s*分钟后`; group 1. -/
  minutesLaterAt (s : List Char) : Option (List Char) :=
    match s with
    | [] => Option.none
    | c :: _ =>
      let run :=
        if c.isDigit then s.takeWhile Char.isDigit
        else if isCnMinChar c then s.takeWhile isCnMinChar
        else []
      match run with
      | [] => Option.none
      | _ =>
        match (s.drop run.length).dropWhile isSp with
        | '分' :: '钟' :: '后' :: _ => some run
        | _ => Option.none
  /-- The `N分钟后` attempt after the hours attempt failed. -/
  minutesBranch (cs : List Char) (base : DateTime) : PyResult :=
    match searchPos minutesLaterAt cs with
    | some g1 =>
      match cn_to_int g1 with
      | some (n + 1) => liftRaise (addMinutes base (n + 1))
      | _ => .none
    | Option.none => .none

/-- Steps 4 and 5 of `parse_time`: the date fragment and the time
fragment are searched independently over the whole text and combined. -/
def step45 (cs : List Char) (base : DateTime) : PyResult :=
  match dateStep cs base with
  | .raised => .raised
  | .val D =>
    match parse_time_of_day cs with
    | some (h, mi) => liftRaise (replaceHM D h mi)
    | Option.none => .val D
  | .none =>
    match parse_time_of_day cs with
    | some (h, mi) => timeOnly base h mi
    | Option.none => step5 cs base

/-- Body of `parse_time` on already stripped text. -/
def parse_core (cs : List Char) (base : DateTime) : PyResult :=
  if cs = [] then .none
  else
    match step1 cs with
    | some d => .val d
    | Option.none =>
      match matchStep2 cs with
      | some (y, mo, dy, rest) => step2go y mo dy rest
      | Option.none =>
        match matchStep3 cs with
        | some (mo, dy, rest) => step3go mo dy rest base
        | Option.none => step45 cs base

/-- Model of `parse_time(text, base)`: strip, then the five strategies
in order. -/
def parse_time (cs : List Char) (base : DateTime) : PyResult :=
  parse_core (pyStrip cs) base

/-- Two-digit zero-padded decimal rendering. -/
def pad2 (n : Nat) : List Char :=
  [Char.ofNat (48 + n / 10 % 10), Char.ofNat (48 + n % 10)]

/-- Four-digit zero-padded decimal rendering (Python documents `%Y` as
zero-padded). -/
def pad4 (n : Nat) : List Char := pad2 (n / 100) ++ pad2 (n % 100)

/-- Model of `format_time`: `dt.strftime("%Y-%m-%d %H:%M")`, with the
fixed placeholder for `None`. -/
def format_time (o : Option DateTime) : List Char :=
  match o with
  | Option.none => ['未', '设', '置']
  | some d =>
    pad4 d.year ++ '-' :: (pad2 d.month ++ '-' :: (pad2 d.day ++
      ' ' :: (pad2 d.hour ++ ':' :: pad2 d.minute)))

/-- Seconds-and-below truncation of an instant. -/
def truncSec (d : DateTime) : DateTime := { d with second := 0, microsecond := 0 }

/-- The reference base instant of the spec scenarios:
2026-02-18 10:00, a Wednesday. -/
def base0 : DateTime := ⟨2026, 2, 18, 10, 0, 0, 0⟩

/-- Once steps 1-3 fail to match, `parse_time` is the relative step. -/
theorem parse_core_step45 (cs : List Char) (base : DateTime) (h0 : ¬ cs = [])
    (h1 : step1 cs = Option.none) (h2 : matchStep2 cs = Option.none)
    (h3 : matchStep3 cs = Option.none) : parse_core cs base = step45 cs base := by
  unfold parse_core
  rw [if_neg h0, h1, h2, h3]

/-- The step-4/5 combination once the date step found nothing and a
time-of-day fragment was found: the time-only branch runs. -/
theorem step45_time_only (cs : List Char) (base : DateTime) (h mi : Nat)
    (hd : dateStep cs base = .none) (ht : parse_time_of_day cs = some (h, mi)) :
    step45 cs base = timeOnly base h mi := by
  unfold step45
  rw [hd, ht]

/-- The step-4 combination once the date step produced a date and a
time-of-day fragment was found: hour and minute are replaced, never
added. -/
theorem step45_combine (cs : List Char) (base : DateTime) (D : DateTime) (h mi : Nat)
    (hd : dateStep cs base = .val D) (ht : parse_time_of_day cs = some (h, mi)) :
    step45 cs base = liftRaise (replaceHM D h mi) := by
  unfold step45
  rw [hd, ht]

/-- The step-4 combination once the date step produced a date and no
time-of-day fragment exists: the date fragment is the result. -/
theorem step45_date_only (cs : List Char) (base : DateTime) (D : DateTime)
    (hd : dateStep cs base = .val D) (ht : parse_time_of_day cs = Option.none) :
    step45 cs base = .val D := by
  unfold step45
  rw [hd, ht]

/-- Relative resolution of the concrete phrase `100天后`: the converter
accepts the ASCII digits and the result is midnight plus 100 days. -/
theorem prd_digits100 (base : DateTime) : parse_relative_date ['1', '0', '0', '天', '后'] base
    = liftRaise (addDays (midnightOf base) 100) := by
  unfold parse_relative_date
  rw [if_neg (by decide), if_neg (by decide), if_neg (by decide), if_neg (by decide),
    show matchDaysLaterAt ['1', '0', '0', '天', '后']
      = some (['1', '0', '0'], ['1', '0', '0', '天', '后']) from by decide]
  simp only []
  rw [show cn_to_int ['1', '0', '0'] = some 100 from by decide]

/-- Claim C1 is a code bug: `parse_time` is claimed never to raise, but
a month of 13 in an `MM月DD日` input reaches `datetime.replace` with
`month=13` (an uncaught ValueError), and an out-of-range `HH:MM` time
reaches `replace(hour=25, minute=99)` the same way. -/
theorem claim1_malformed_raises :
    parse_time "13月1日".data base0 = .raised ∧
    parse_time "25:99".data base0 = .raised := by
  exact ⟨by decide, by decide⟩

/-- Claim C2 counterexample: in `百天后下周一` the `N天后` pattern
matches textually, its numeral `百` fails to convert, and the date loop
breaks — the later `下周一` pattern is never tried, although `下周一`
alone parses fine. -/
theorem claim2_cex_no_fallthrough :
    parse_time "百天后下周一".data base0 = .none ∧
    parse_time "下周一".data base0 = .val ⟨2026, 3, 2, 0, 0, 0, 0⟩ := by
  exact ⟨by decide, by decide⟩

/-- Claim C2 amended: a textual date-pattern match whose numeral fails
to convert ends the date step with no fragment (no fall-through to
later date patterns), but the independent time-of-day search still
runs: `百天后下周一` yields no result for every base, while
`百天后八点` still succeeds through the time-only branch. -/
theorem claim2_amended_break_then_time :
    (∀ base : DateTime, parse_time "百天后下周一".data base = .none) ∧
    (∀ base : DateTime, parse_time "百天后八点".data base = timeOnly base 8 0) := by
  constructor
  · intro base
    exact rfl
  · intro base
    unfold parse_time
    rw [show pyStrip "百天后八点".data = "百天后八点".data from by decide,
      parse_core_step45 _ base (by decide) (by decide) (by decide) (by decide),
      step45_time_only _ base 8 0 (by exact rfl) (by decide)]

/-- Claim C3 counterexample: `一百天后` does not parse — the `N天后`
numeral class admits `百` but `cn_to_int` has no mapping for it, so the
hundreds-scale Chinese numeral fails to convert. -/
theorem claim3_cex_hundred_chinese :
    parse_time "一百天后".data base0 = .none ∧
    cn_to_int "一百".data = Option.none := by
  exact ⟨by decide, by decide⟩

/-- Claim C3 amended: phrases whose numeral contains `百` never produce
a date (for every base), and a hundreds-scale day offset is supported
only through ASCII digits: `100天后` is midnight plus 100 days. -/
theorem claim3_amended_hundreds :
    (∀ base : DateTime, parse_time "一百天后".data base = .none) ∧
    (∀ base : DateTime,
      parse_time "100天后".data base = liftRaise (addDays (midnightOf base) 100)) := by
  constructor
  · intro base
    exact rfl
  · intro base
    unfold parse_time
    rw [show pyStrip "100天后".data = "100天后".data from by decide,
      parse_core_step45 _ base (by decide) (by decide) (by decide) (by decide)]
    unfold step45 dateStep
    rw [show dateSearch "100天后".data = some ['1', '0', '0', '天', '后'] from by decide,
      show ("100天后".data : List Char) = ['1', '0', '0', '天', '后'] from by decide]
    simp only []
    rw [prd_digits100 base,
      show parse_time_of_day ['1', '0', '0', '天', '后'] = Option.none from by decide]
    cases ho : addDays (midnightOf base) 100 with
    | none => exact rfl
    | some d => exact rfl

/-- Claim C5 is a code bug: from Wednesday 2026-02-18, `下周一`
resolves to 2026-03-02 (the Monday of the week after next, because the
code adds 7 on top of an offset that already crossed into next week),
not the claimed 2026-02-23. -/
theorem claim5_next_monday_overshoots :
    parse_time "下周一".data base0 = .val ⟨2026, 3, 2, 0, 0, 0, 0⟩ ∧
    pyWeekday base0 = 2 := by
  exact ⟨by decide, by decide⟩

/-- Resolution of `下周X` for any mapped weekday character: midnight
plus `((target - weekday) mod 7) + 7` days. -/
theorem prd_next_week (base : DateTime) (c : Char) (w : Nat) (hw : WEEKDAY_MAP c = some w) :
    parse_relative_date ('下' :: '周' :: [c]) base
      = liftRaise (addDays (midnightOf base)
          (((w : Int) - (pyWeekday base : Int)) % 7 + 7).toNat) := by
  unfold parse_relative_date
  rw [if_neg (by rintro (h | h) <;> (injection h with h1 _; exact absurd h1 (by decide))),
    if_neg (by rintro (h | h) <;> (injection h with h1 _; exact absurd h1 (by decide))),
    if_neg (by intro h; injection h with h1 _; exact absurd h1 (by decide)),
    if_neg (by intro h; injection h with h1 _; exact absurd h1 (by decide)),
    show matchDaysLaterAt ('下' :: '周' :: [c]) = Option.none from rfl]
  simp only []
  unfold parse_relative_date.afterDays
  simp [hw]

/-- Resolution of `这周X` for any mapped weekday character: midnight
plus `(target - weekday) mod 7` days. -/
theorem prd_this_week (base : DateTime) (c : Char) (w : Nat) (hw : WEEKDAY_MAP c = some w) :
    parse_relative_date ('这' :: '周' :: [c]) base
      = liftRaise (addDays (midnightOf base)
          (((w : Int) - (pyWeekday base : Int)) % 7).toNat) := by
  unfold parse_relative_date
  rw [if_neg (by rintro (h | h) <;> (injection h with h1 _; exact absurd h1 (by decide))),
    if_neg (by rintro (h | h) <;> (injection h with h1 _; exact absurd h1 (by decide))),
    if_neg (by intro h; injection h with h1 _; exact absurd h1 (by decide)),
    if_neg (by intro h; injection h with h1 _; exact absurd h1 (by decide)),
    show matchDaysLaterAt ('这' :: '周' :: [c]) = Option.none from rfl]
  simp [parse_relative_date.afterDays, parse_relative_date.thisWeek, hw]

/-- Resolution of `本周X`, identical to `这周X`. -/
theorem prd_ben_week (base : DateTime) (c : Char) (w : Nat) (hw : WEEKDAY_MAP c = some w) :
    parse_relative_date ('本' :: '周' :: [c]) base
      = liftRaise (addDays (midnightOf base)
          (((w : Int) - (pyWeekday base : Int)) % 7).toNat) := by
  unfold parse_relative_date
  rw [if_neg (by rintro (h | h) <;> (injection h with h1 _; exact absurd h1 (by decide))),
    if_neg (by rintro (h | h) <;> (injection h with h1 _; exact absurd h1 (by decide))),
    if_neg (by intro h; injection h with h1 _; exact absurd h1 (by decide)),
    if_neg (by intro h; injection h with h1 _; exact absurd h1 (by decide)),
    show matchDaysLaterAt ('本' :: '周' :: [c]) = Option.none from rfl]
  simp [parse_relative_date.afterDays, parse_relative_date.thisWeek, hw]

/-- Resolution of bare `周X`, identical to `这周X`. -/
theorem prd_bare_week (base : DateTime) (c : Char) (w : Nat) (hw : WEEKDAY_MAP c = some w) :
    parse_relative_date ('周' :: [c]) base
      = liftRaise (addDays (midnightOf base)
          (((w : Int) - (pyWeekday base : Int)) % 7).toNat) := by
  unfold parse_relative_date
  rw [if_neg (by rintro (h | h) <;> (injection h with h1 _; exact absurd h1 (by decide))),
    if_neg (by rintro (h | h) <;> (injection h with h1 _; exact absurd h1 (by decide))),
    if_neg (by intro h; injection h with h1 _; exact absurd h1 (by decide)),
    if_neg (by intro h; injection h with h1 _; exact absurd h1 (by decide)),
    show matchDaysLaterAt ('周' :: [c]) = Option.none from rfl]
  simp [parse_relative_date.afterDays, parse_relative_date.thisWeek, hw]

/-- Claim C4: for every base and mapped weekday target, `下周X` is
midnight plus `((target - weekday) mod 7) + 7` days (always 7..13 days
ahead), while `这周X`, `本周X` and `周X` are midnight plus
`(target - weekday) mod 7` days (0..6 days ahead, today when today has
the target weekday). -/
theorem claim4_weekday_resolution (base : DateTime) (c : Char) (w : Nat)
    (hw : WEEKDAY_MAP c = some w) (pfx : List Char)
    (hp : pfx = ['这'] ∨ pfx = ['本'] ∨ pfx = []) :
    parse_relative_date ('下' :: '周' :: [c]) base
      = liftRaise (addDays (midnightOf base)
          (((w : Int) - (pyWeekday base : Int)) % 7 + 7).toNat) ∧
    7 ≤ (((w : Int) - (pyWeekday base : Int)) % 7 + 7).toNat ∧
    (((w : Int) - (pyWeekday base : Int)) % 7 + 7).toNat ≤ 13 ∧
    parse_relative_date (pfx ++ '周' :: [c]) base
      = liftRaise (addDays (midnightOf base)
          (((w : Int) - (pyWeekday base : Int)) % 7).toNat) ∧
    (((w : Int) - (pyWeekday base : Int)) % 7).toNat ≤ 6 ∧
    (pyWeekday base = w → (((w : Int) - (pyWeekday base : Int)) % 7).toNat = 0) := by
  have h7a : 0 ≤ ((w : Int) - (pyWeekday base : Int)) % 7 :=
    Int.emod_nonneg _ (by norm_num)
  have h7b : ((w : Int) - (pyWeekday base : Int)) % 7 < 7 :=
    Int.emod_lt_of_pos _ (by norm_num)
  refine ⟨prd_next_week base c w hw, by omega, by omega, ?_, by omega, ?_⟩
  · rcases hp with rfl | rfl | rfl
    · simpa using prd_this_week base c w hw
    · simpa using prd_ben_week base c w hw
    · simpa using prd_bare_week base c w hw
  · intro he
    rw [he, Int.sub_self]
    exact rfl

/-- Witness for C4 at the concrete weekday `一` (Monday) with no
this-week prefix. -/
theorem claim4_weekday_resolution_witness :
    WEEKDAY_MAP '一' = some 0 ∧
    (parse_relative_date ('下' :: '周' :: ['一']) base0
      = liftRaise (addDays (midnightOf base0)
          (((0 : Int) - (pyWeekday base0 : Int)) % 7 + 7).toNat) ∧
    7 ≤ (((0 : Int) - (pyWeekday base0 : Int)) % 7 + 7).toNat ∧
    (((0 : Int) - (pyWeekday base0 : Int)) % 7 + 7).toNat ≤ 13 ∧
    parse_relative_date ([] ++ '周' :: ['一']) base0
      = liftRaise (addDays (midnightOf base0)
          (((0 : Int) - (pyWeekday base0 : Int)) % 7).toNat) ∧
    (((0 : Int) - (pyWeekday base0 : Int)) % 7).toNat ≤ 6 ∧
    (pyWeekday base0 = 0 → (((0 : Int) - (pyWeekday base0 : Int)) % 7).toNat = 0)) :=
  ⟨by decide,
    claim4_weekday_resolution base0 '一' 0 (by decide) [] (Or.inr (Or.inr rfl))⟩

/-- Claim C7: when steps 1-3 fail, the date step finds nothing and a
time-of-day fragment is found, the result is base with hour/minute
replaced and seconds zeroed, plus exactly one day whenever that instant
is not strictly after base; concretely `晚上8点半` from the reference
base is 2026-02-18 20:30. -/
theorem claim7_time_only_branch :
    (∀ (cs : List Char) (base : DateTime) (h mi : Nat),
      pyStrip cs = cs → step1 cs = Option.none → matchStep2 cs = Option.none →
      matchStep3 cs = Option.none → dateStep cs base = .none →
      parse_time_of_day cs = some (h, mi) →
      parse_time cs base =
        (match replaceHMS0 base h mi with
         | Option.none => PyResult.raised
         | some r => if dtLe r base then liftRaise (addDays r 1) else .val r)) ∧
    parse_time "晚上8点半".data base0 = .val ⟨2026, 2, 18, 20, 30, 0, 0⟩ := by
  constructor
  · intro cs base h mi hstrip h1 h2 h3 h4 ht
    have h0 : ¬ cs = [] := by
      intro he
      rw [he, show parse_time_of_day ([] : List Char) = Option.none from by decide] at ht
      simp at ht
    unfold parse_time
    rw [hstrip, parse_core_step45 _ base h0 h1 h2 h3, step45_time_only _ base h mi h4 ht]
    rfl
  · decide

/-- Witness for C7 at `晚上8点半` and the reference base. -/
theorem claim7_time_only_branch_witness :
    pyStrip "晚上8点半".data = "晚上8点半".data ∧
    step1 "晚上8点半".data = Option.none ∧
    matchStep2 "晚上8点半".data = Option.none ∧
    matchStep3 "晚上8点半".data = Option.none ∧
    dateStep "晚上8点半".data base0 = .none ∧
    parse_time_of_day "晚上8点半".data = some (20, 30) ∧
    parse_time "晚上8点半".data base0 =
      (match replaceHMS0 base0 20 30 with
       | Option.none => PyResult.raised
       | some r => if dtLe r base0 then liftRaise (addDays r 1) else .val r) :=
  ⟨by decide, by decide, by decide, by decide, by decide, by decide,
    claim7_time_only_branch.1 _ base0 20 30 (by decide) (by decide) (by decide)
      (by decide) (by decide) (by decide)⟩

/-- Claim C8: when both a date fragment and a time-of-day fragment are
found, they combine by replacing the date's hour and minute with the
fragment, never by adding a duration; concretely `明天下午三点` from
the reference base is 2026-02-19 15:00. -/
theorem claim8_combine_replaces :
    (∀ (cs : List Char) (base D : DateTime) (h mi : Nat),
      pyStrip cs = cs → step1 cs = Option.none → matchStep2 cs = Option.none →
      matchStep3 cs = Option.none → dateStep cs base = .val D →
      parse_time_of_day cs = some (h, mi) →
      parse_time cs base = liftRaise (replaceHM D h mi)) ∧
    parse_time "明天下午三点".data base0 = .val ⟨2026, 2, 19, 15, 0, 0, 0⟩ := by
  constructor
  · intro cs base D h mi hstrip h1 h2 h3 h4 ht
    have h0 : ¬ cs = [] := by
      intro he
      rw [he, show parse_time_of_day ([] : List Char) = Option.none from by decide] at ht
      simp at ht
    unfold parse_time
    rw [hstrip, parse_core_step45 _ base h0 h1 h2 h3, step45_combine _ base D h mi h4 ht]
  · decide

/-- Witness for C8 at `明天下午三点` and the reference base. -/
theorem claim8_combine_replaces_witness :
    pyStrip "明天下午三点".data = "明天下午三点".data ∧
    step1 "明天下午三点".data = Option.none ∧
    matchStep2 "明天下午三点".data = Option.none ∧
    matchStep3 "明天下午三点".data = Option.none ∧
    dateStep "明天下午三点".data base0 = .val ⟨2026, 2, 19, 0, 0, 0, 0⟩ ∧
    parse_time_of_day "明天下午三点".data = some (15, 0) ∧
    parse_time "明天下午三点".data base0 =
      liftRaise (replaceHM ⟨2026, 2, 19, 0, 0, 0, 0⟩ 15 0) :=
  ⟨by decide, by decide, by decide, by decide, by decide, by decide,
    claim8_combine_replaces.1 _ base0 ⟨2026, 2, 19, 0, 0, 0, 0⟩ 15 0 (by decide)
      (by decide) (by decide) (by decide) (by decide) (by decide)⟩

/-- Claim C9 counterexample: `零十` contains the ten character and its
split computes tens 0 and ones 0, yet `cn_to_int` returns `None`
rather than the claimed `tens*10 + ones` (= 0), because of the final
positivity guard. -/
theorem claim9_cex_zero_ten :
    cn_to_int "零十".data = Option.none ∧
    tensOf (tenSep "零十".data) "零十".data = 0 ∧
    onesOf (tenSep "零十".data) "零十".data = 0 := by
  exact ⟨by decide, by decide, by decide⟩

/-- Claim C9 amended: on a token containing `十` (or `拾`), `cn_to_int`
splits around the separator and returns `tens*10 + ones` when that
value is positive (`None` when it computes 0); the tens part defaults
to 1 when empty, the ones part to 0. The listed concrete values hold. -/
theorem claim9_amended_ten_split :
    (∀ cs : List Char, ('十' ∈ cs ∨ '拾' ∈ cs) →
      cn_to_int cs =
        (if 0 < tensOf (tenSep cs) cs * 10 + onesOf (tenSep cs) cs then
          some (tensOf (tenSep cs) cs * 10 + onesOf (tenSep cs) cs)
        else Option.none)) ∧
    cn_to_int "十".data = some 10 ∧ cn_to_int "十五".data = some 15 ∧
    cn_to_int "二十三".data = some 23 ∧ cn_to_int "三".data = some 3 := by
  refine ⟨?_, by decide, by decide, by decide, by decide⟩
  intro cs hmem
  have hall : ¬ (cs.all Char.isDigit = true) := by
    intro hall
    have hx : ∃ x ∈ cs, x = '十' ∨ x = '拾' := by
      rcases hmem with h | h
      · exact ⟨'十', h, Or.inl rfl⟩
      · exact ⟨'拾', h, Or.inr rfl⟩
    rcases hx with ⟨x, hx1, hx2⟩
    have hd := List.all_eq_true.mp hall x hx1
    rcases hx2 with rfl | rfl <;> exact absurd hd (by decide)
  match cs with
  | [] => exact absurd hmem (by decide)
  | [a] =>
    have ha : a = '十' ∨ a = '拾' := by
      rcases hmem with h | h
      · simp only [List.mem_singleton] at h; exact Or.inl h.symm
      · simp only [List.mem_singleton] at h; exact Or.inr h.symm
    rcases ha with rfl | rfl <;> decide
  | a :: b :: t =>
    unfold cn_to_int
    rw [if_neg hall]
    simp only []
    unfold cn_to_int.cnTen
    rw [if_pos hmem]

/-- Witness for C9's general part at the token `二十三`. -/
theorem claim9_amended_ten_split_witness :
    ('十' ∈ "二十三".data ∨ '拾' ∈ "二十三".data) ∧
    cn_to_int "二十三".data =
      (if 0 < tensOf (tenSep "二十三".data) "二十三".data * 10 +
          onesOf (tenSep "二十三".data) "二十三".data then
        some (tensOf (tenSep "二十三".data) "二十三".data * 10 +
          onesOf (tenSep "二十三".data) "二十三".data)
      else Option.none) :=
  ⟨by decide, claim9_amended_ten_split.1 _ (by decide)⟩

/-- A digit is not Python whitespace. -/
theorem not_isSp_of_isDigit (c : Char) (h : c.isDigit = true) : ¬ (isSp c = true) := by
  intro hs
  unfold isSp at hs
  rw [decide_eq_true_eq] at hs
  rcases hs with rfl | rfl | rfl | rfl | rfl | rfl <;> exact absurd h (by decide)

/-- Reading `\s*` followed by a non-digit literal fails on a digit head. -/
theorem mSpacesThen_digit_none (t c : Char) (r : List Char)
    (hc : c.isDigit = true) (ht : t.isDigit = false) :
    mSpacesThen t (c :: r) = Option.none := by
  unfold mSpacesThen
  rw [if_neg (not_isSp_of_isDigit c hc), if_neg]
  intro he
  subst he
  rw [hc] at ht
  cases ht

/-- Unfolding of the two-then-one digit reader on a two-or-more list. -/
theorem twoDigitThen_cons {α : Type} (a b : Char) (r : List Char)
    (k : Nat → List Char → Option α) :
    matchStep2.twoDigitThen (a :: b :: r) k =
      (if a.isDigit = true then
        (if b.isDigit = true then
          opOr (k (charDigit a * 10 + charDigit b) r) (k (charDigit a) (b :: r))
        else k (charDigit a) (b :: r))
      else Option.none) := rfl

/-- Unfolding of the four-digit year reader on a four-or-more list. -/
theorem read4Digits_cons (a b c d : Char) (r : List Char) :
    read4Digits (a :: b :: c :: d :: r) =
      (if a.isDigit = true ∧ b.isDigit = true ∧ c.isDigit = true ∧ d.isDigit = true then
        some (((charDigit a * 10 + charDigit b) * 10 + charDigit c) * 10 + charDigit d, r)
      else Option.none) := rfl

/-- A successful step-3 match forces a non-digit among the first four
characters, so the four-digit year reader fails. -/
theorem matchStep3_read4_none (cs : List Char) (x : Nat × Nat × List Char)
    (h : matchStep3 cs = some x) : read4Digits cs = Option.none := by
  match cs with
  | [] => rfl
  | [a] => rfl
  | [a, b] => rfl
  | [a, b, c] => rfl
  | a :: b :: c :: d :: t =>
    by_cases hd4 : a.isDigit = true ∧ b.isDigit = true ∧ c.isDigit = true ∧ d.isDigit = true
    · exfalso
      obtain ⟨ha, hb, hc, hd⟩ := hd4
      have hnone : matchStep3 (a :: b :: c :: d :: t) = Option.none := by
        unfold matchStep3
        rw [twoDigitThen_cons, if_pos ha, if_pos hb]
        rw [mSpacesThen_digit_none '月' c (d :: t) hc (by decide),
          mSpacesThen_digit_none '月' b (c :: d :: t) hb (by decide)]
        rfl
      rw [hnone] at h
      cases h
    · rw [read4Digits_cons, if_neg hd4]

/-- When the four-digit year reader fails, every step-1 strptime format
fails. -/
theorem step1_none_of_read4 (cs : List Char) (h : read4Digits cs = Option.none) :
    step1 cs = Option.none := by
  unfold step1 fmtFull fmtHM fmtD
  rw [h]
  rfl

/-- When the four-digit year reader fails, the step-2 pattern fails. -/
theorem matchStep2_none_of_read4 (cs : List Char) (h : read4Digits cs = Option.none) :
    matchStep2 cs = Option.none := by
  unfold matchStep2
  rw [h]

/-- A strictly larger year makes a datetime compare strictly greater. -/
theorem dtLt_false_of_year_lt (a b : DateTime) (h : b.year < a.year) : dtLt a b = false := by
  unfold dtLt
  rw [if_pos (by omega : a.year ≠ b.year)]
  exact decide_eq_false (by omega)

/-- Claim C6 counterexample: `2月29日` with base 2024-12-01 — a valid
month/day in the base's (leap) year whose midnight is strictly before
base — raises from `replace(year=2025)` instead of returning next
year's occurrence. -/
theorem claim6_cex_feb29_rollover :
    parse_time "2月29日".data ⟨2024, 12, 1, 0, 0, 0, 0⟩ = .raised ∧
    29 ≤ daysInMonth 2024 2 ∧
    dtLt ⟨2024, 2, 29, 0, 0, 0, 0⟩ ⟨2024, 12, 1, 0, 0, 0, 0⟩ = true := by
  exact ⟨by decide, by decide, by decide⟩

/-- Claim C6 amended: on an `MM月DD日` input (the step-3 pattern with
empty remainder) with a month/day existing in base's year, `parse_time`
returns base's year with month and day replaced at midnight, rolling
the year forward by one when that midnight is strictly before base —
provided the rolled date also exists in the next year within the year
range (otherwise the parse raises, e.g. Feb 29); the result is never
strictly before base. -/
theorem claim6_amended_month_day (cs : List Char) (base : DateTime) (mo dy : Nat)
    (hm : matchStep3 (pyStrip cs) = some (mo, dy, []))
    (hv : 1 ≤ mo ∧ mo ≤ 12 ∧ 1 ≤ dy ∧ dy ≤ daysInMonth base.year mo)
    (hroll : dtLt ⟨base.year, mo, dy, 0, 0, 0, 0⟩ base = true →
      dy ≤ daysInMonth (base.year + 1) mo ∧ base.year + 1 ≤ 9999) :
    parse_time cs base =
      .val (if dtLt ⟨base.year, mo, dy, 0, 0, 0, 0⟩ base then
        ⟨base.year + 1, mo, dy, 0, 0, 0, 0⟩ else ⟨base.year, mo, dy, 0, 0, 0, 0⟩) ∧
    dtLt (if dtLt (⟨base.year, mo, dy, 0, 0, 0, 0⟩ : DateTime) base then
        (⟨base.year + 1, mo, dy, 0, 0, 0, 0⟩ : DateTime)
      else ⟨base.year, mo, dy, 0, 0, 0, 0⟩) base = false := by
  have hr4 := matchStep3_read4_none _ _ hm
  have h1 : step1 (pyStrip cs) = Option.none := step1_none_of_read4 _ hr4
  have h2 : matchStep2 (pyStrip cs) = Option.none := matchStep2_none_of_read4 _ hr4
  have h0 : ¬ pyStrip cs = [] := by
    intro he
    rw [he] at hm
    exact Option.noConfusion hm
  unfold parse_time parse_core
  rw [if_neg h0, h1, h2, hm]
  simp only []
  unfold step3go
  rw [show replaceMD base mo dy = some ⟨base.year, mo, dy, 0, 0, 0, 0⟩ from by
    unfold replaceMD; rw [if_pos hv]]
  simp only []
  by_cases hlt : dtLt ⟨base.year, mo, dy, 0, 0, 0, 0⟩ base = true
  · obtain ⟨hd2, hy2⟩ := hroll hlt
    rw [if_pos hlt, if_pos hlt,
      show replaceYear ⟨base.year, mo, dy, 0, 0, 0, 0⟩ (base.year + 1)
          = some ⟨base.year + 1, mo, dy, 0, 0, 0, 0⟩ from by
        unfold replaceYear; rw [if_pos ⟨by omega, hy2, hd2⟩]]
    simp only []
    refine ⟨rfl, ?_⟩
    exact dtLt_false_of_year_lt _ _ (by show base.year < base.year + 1; omega)
  · rw [if_neg hlt, if_neg hlt]
    simp only [Bool.not_eq_true] at hlt
    exact ⟨rfl, hlt⟩

/-- Witness for C6 at `3月5日` and the reference base (no rollover:
2026-03-05 is after 2026-02-18 10:00). -/
theorem claim6_amended_month_day_witness :
    matchStep3 (pyStrip "3月5日".data) = some (3, 5, []) ∧
    (1 ≤ 3 ∧ 3 ≤ 12 ∧ 1 ≤ 5 ∧ 5 ≤ daysInMonth base0.year 3) ∧
    (parse_time "3月5日".data base0 =
      .val (if dtLt ⟨base0.year, 3, 5, 0, 0, 0, 0⟩ base0 then
        ⟨base0.year + 1, 3, 5, 0, 0, 0, 0⟩ else ⟨base0.year, 3, 5, 0, 0, 0, 0⟩) ∧
    dtLt (if dtLt (⟨base0.year, 3, 5, 0, 0, 0, 0⟩ : DateTime) base0 then
        (⟨base0.year + 1, 3, 5, 0, 0, 0, 0⟩ : DateTime)
      else ⟨base0.year, 3, 5, 0, 0, 0, 0⟩) base0 = false) :=
  ⟨by decide, by decide,
    claim6_amended_month_day "3月5日".data base0 3 5 (by decide) (by decide)
      (fun _ => ⟨by decide, by decide⟩)⟩

/-- Unfolding of well-formedness into its parts. -/
theorem validB_iff (d : DateTime) : ValidB d = true ↔ FieldsOk d ∧ d.year ≤ 9999 := by
  unfold ValidB
  exact decide_eq_true_iff

/-- Stepping one day forward preserves field well-formedness. -/
theorem fieldsOk_nextDay (d : DateTime) (h : FieldsOk d) : FieldsOk (nextDay d) := by
  obtain ⟨h1, h2, h3, h4, h5, h6, h7, h8, h9⟩ := h
  unfold nextDay
  split_ifs with ha hb
  · exact ⟨h1, h2, h3, by show 1 ≤ d.day + 1; omega, by show d.day + 1 ≤ _; exact ha, h6, h7, h8, h9⟩
  · exact ⟨h1, by show 1 ≤ d.month + 1; omega, by show d.month + 1 ≤ 12; omega,
      le_refl 1, daysInMonth_pos _ _, h6, h7, h8, h9⟩
  · exact ⟨by show 1 ≤ d.year + 1; omega, le_refl 1, by show (1 : Nat) ≤ 12; omega,
      le_refl 1, daysInMonth_pos _ _, h6, h7, h8, h9⟩

/-- Iterated day stepping preserves field well-formedness. -/
theorem iterate_nextDay_fieldsOk (n : Nat) (d : DateTime) (h : FieldsOk d) :
    FieldsOk (Nat.iterate nextDay n d) := by
  induction n generalizing d with
  | zero => exact h
  | succ k ih =>
    rw [Function.iterate_succ_apply]
    exact ih _ (fieldsOk_nextDay d h)

/-- A successful day addition on a well-formed date is well-formed. -/
theorem addDays_valid (d : DateTime) (n : Nat) (r : DateTime) (hd : FieldsOk d)
    (h : addDays d n = some r) : ValidB r = true := by
  unfold addDays at h
  simp only [] at h
  split_ifs at h with hy
  · rw [Option.some.injEq] at h
    subst h
    exact (validB_iff _).mpr ⟨iterate_nextDay_fieldsOk n d hd, hy⟩

/-- A successful hour addition on a valid datetime is valid. -/
theorem addHours_valid (d : DateTime) (n : Nat) (r : DateTime) (hd : ValidB d = true)
    (h : addHours d n = some r) : ValidB r = true := by
  obtain ⟨⟨h1, h2, h3, h4, h5, h6, h7, h8, h9⟩, hy⟩ := (validB_iff d).mp hd
  refine addDays_valid _ _ _ ?_ h
  exact ⟨h1, h2, h3, h4, h5, by show (d.hour + n) % 24 ≤ 23; omega, h7, h8, h9⟩

/-- A successful minute addition on a valid datetime is valid. -/
theorem addMinutes_valid (d : DateTime) (n : Nat) (r : DateTime) (hd : ValidB d = true)
    (h : addMinutes d n = some r) : ValidB r = true := by
  obtain ⟨⟨h1, h2, h3, h4, h5, h6, h7, h8, h9⟩, hy⟩ := (validB_iff d).mp hd
  refine addHours_valid _ _ _ ?_ h
  refine (validB_iff _).mpr ⟨?_, hy⟩
  exact ⟨h1, h2, h3, h4, h5, h6, by show (d.minute + n) % 60 ≤ 59; omega, h8, h9⟩

/-- A constructed datetime is valid. -/
theorem mkDT_valid (y mo dy h mi s : Nat) (r : DateTime) (hr : mkDT y mo dy h mi s = some r) :
    ValidB r = true := by
  unfold mkDT at hr
  split_ifs at hr with hc
  · rw [Option.some.injEq] at hr
    subst hr
    refine (validB_iff _).mpr ⟨⟨?_, ?_, ?_, ?_, ?_, ?_, ?_, ?_, ?_⟩, ?_⟩ <;> simp only [] <;> omega

/-- Replacing hour and minute preserves validity. -/
theorem replaceHM_valid (d : DateTime) (h mi : Nat) (r : DateTime) (hd : ValidB d = true)
    (hr : replaceHM d h mi = some r) : ValidB r = true := by
  obtain ⟨⟨h1, h2, h3, h4, h5, h6, h7, h8, h9⟩, hy⟩ := (validB_iff d).mp hd
  unfold replaceHM at hr
  split_ifs at hr with hc
  · rw [Option.some.injEq] at hr
    subst hr
    exact (validB_iff _).mpr ⟨⟨h1, h2, h3, h4, h5, hc.1, hc.2, h8, h9⟩, hy⟩

/-- Replacing hour and minute and zeroing seconds preserves validity. -/
theorem replaceHMS0_valid (d : DateTime) (h mi : Nat) (r : DateTime) (hd : ValidB d = true)
    (hr : replaceHMS0 d h mi = some r) : ValidB r = true := by
  obtain ⟨⟨h1, h2, h3, h4, h5, h6, h7, h8, h9⟩, hy⟩ := (validB_iff d).mp hd
  unfold replaceHMS0 at hr
  split_ifs at hr with hc
  · rw [Option.some.injEq] at hr
    subst hr
    exact (validB_iff _).mpr
      ⟨⟨h1, h2, h3, h4, h5, hc.1, hc.2, Nat.zero_le 59, Nat.zero_le 999999⟩, hy⟩

/-- A successful month/day replacement on a valid base is valid. -/
theorem replaceMD_valid (base : DateTime) (mo dy : Nat) (r : DateTime)
    (hb : ValidB base = true) (hr : replaceMD base mo dy = some r) : ValidB r = true := by
  obtain ⟨⟨h1, h2, h3, h4, h5, h6, h7, h8, h9⟩, hy⟩ := (validB_iff base).mp hb
  unfold replaceMD at hr
  split_ifs at hr with hc
  · rw [Option.some.injEq] at hr
    subst hr
    refine (validB_iff _).mpr ⟨⟨h1, hc.1, hc.2.1, hc.2.2.1, hc.2.2.2, ?_, ?_, ?_, ?_⟩, hy⟩
      <;> simp only [] <;> omega

/-- A successful year replacement on a valid datetime is valid. -/
theorem replaceYear_valid (d : DateTime) (y : Nat) (r : DateTime) (hd : ValidB d = true)
    (hr : replaceYear d y = some r) : ValidB r = true := by
  obtain ⟨⟨h1, h2, h3, h4, h5, h6, h7, h8, h9⟩, hy⟩ := (validB_iff d).mp hd
  unfold replaceYear at hr
  split_ifs at hr with hc
  · rw [Option.some.injEq] at hr
    subst hr
    exact (validB_iff _).mpr ⟨⟨hc.1, h2, h3, h4, hc.2.2, h6, h7, h8, h9⟩, hc.2.1⟩

/-- Midnight truncation of a valid datetime is valid. -/
theorem midnightOf_valid (base : DateTime) (hb : ValidB base = true) :
    ValidB (midnightOf base) = true := by
  obtain ⟨⟨h1, h2, h3, h4, h5, h6, h7, h8, h9⟩, hy⟩ := (validB_iff base).mp hb
  exact (validB_iff _).mpr ⟨⟨h1, h2, h3, h4, h5, Nat.zero_le 23, Nat.zero_le 59,
    Nat.zero_le 59, Nat.zero_le 999999⟩, hy⟩

/-- Inversion for `liftRaise` returning a value. -/
theorem liftRaise_val (o : Option DateTime) (d : DateTime) (h : liftRaise o = .val d) :
    o = some d := by
  cases o with
  | none => cases h
  | some x => cases h; rfl

/-- Inversion for `opOr` producing a value. -/
theorem opOr_some {α : Type} (a b : Option α) (x : α) (h : opOr a b = some x) :
    a = some x ∨ b = some x := by
  cases a with
  | some y => exact Or.inl h
  | none => exact Or.inr h

/-- Inversion for a literal-character read. -/
theorem litK_some {α : Type} (t : Char) (cs : List Char) (k : List Char → Option α)
    (x : α) (h : litK t cs k = some x) : ∃ r, k r = some x := by
  rcases cs with _ | ⟨c, r⟩
  · exact Option.noConfusion h
  · rw [show litK t (c :: r) k = (if c = t then k r else Option.none) from rfl] at h
    split_ifs at h
    exact ⟨r, h⟩

/-- Inversion for a whitespace-run read. -/
theorem spacesK_some {α : Type} (cs : List Char) (k : List Char → Option α)
    (x : α) (h : spacesK cs k = some x) : ∃ r, k r = some x := by
  rcases cs with _ | ⟨c, r⟩
  · exact Option.noConfusion h
  · rw [show spacesK (c :: r) k =
        (if isSp c = true then k (r.dropWhile isSp) else Option.none) from rfl] at h
    split_ifs at h
    exact ⟨r.dropWhile isSp, h⟩

/-- Inversion for the strptime month reader. -/
theorem readMonthK_some {α : Type} (cs : List Char) (k : Nat → List Char → Option α)
    (x : α) (h : readMonthK cs k = some x) : ∃ v r, k v r = some x := by
  rcases cs with _ | ⟨a, _ | ⟨b, r⟩⟩
  · exact Option.noConfusion h
  · rw [show readMonthK [a] k =
        (if a.isDigit = true ∧ 1 ≤ charDigit a then k (charDigit a) [] else Option.none)
        from rfl] at h
    split_ifs at h
    exact ⟨_, _, h⟩
  · rw [show readMonthK (a :: b :: r) k = opOr
        (if a.isDigit = true ∧ b.isDigit = true ∧ 1 ≤ charDigit a * 10 + charDigit b ∧
            charDigit a * 10 + charDigit b ≤ 12 then
          k (charDigit a * 10 + charDigit b) r else Option.none)
        (if a.isDigit = true ∧ 1 ≤ charDigit a then k (charDigit a) (b :: r)
          else Option.none) from rfl] at h
    rcases opOr_some _ _ _ h with h1 | h1 <;> (split_ifs at h1; exact ⟨_, _, h1⟩)

/-- Inversion for the strptime day reader. -/
theorem readDayK_some {α : Type} (cs : List Char) (k : Nat → List Char → Option α)
    (x : α) (h : readDayK cs k = some x) : ∃ v r, k v r = some x := by
  rcases cs with _ | ⟨a, _ | ⟨b, r⟩⟩
  · exact Option.noConfusion h
  · rw [show readDayK [a] k =
        (if a.isDigit = true ∧ 1 ≤ charDigit a then k (charDigit a) [] else Option.none)
        from rfl] at h
    split_ifs at h
    exact ⟨_, _, h⟩
  · rw [show readDayK (a :: b :: r) k = opOr
        (if a.isDigit = true ∧ b.isDigit = true ∧ 1 ≤ charDigit a * 10 + charDigit b ∧
            charDigit a * 10 + charDigit b ≤ 31 then
          k (charDigit a * 10 + charDigit b) r else Option.none)
        (if a.isDigit = true ∧ 1 ≤ charDigit a then k (charDigit a) (b :: r)
          else Option.none) from rfl] at h
    rcases opOr_some _ _ _ h with h1 | h1 <;> (split_ifs at h1; exact ⟨_, _, h1⟩)

/-- Inversion for the strptime hour reader. -/
theorem readHourK_some {α : Type} (cs : List Char) (k : Nat → List Char → Option α)
    (x : α) (h : readHourK cs k = some x) : ∃ v r, k v r = some x := by
  rcases cs with _ | ⟨a, _ | ⟨b, r⟩⟩
  · exact Option.noConfusion h
  · rw [show readHourK [a] k =
        (if a.isDigit = true then k (charDigit a) [] else Option.none) from rfl] at h
    split_ifs at h
    exact ⟨_, _, h⟩
  · rw [show readHourK (a :: b :: r) k = opOr
        (if a.isDigit = true ∧ b.isDigit = true ∧ charDigit a * 10 + charDigit b ≤ 23 then
          k (charDigit a * 10 + charDigit b) r else Option.none)
        (if a.isDigit = true then k (charDigit a) (b :: r) else Option.none) from rfl] at h
    rcases opOr_some _ _ _ h with h1 | h1 <;> (split_ifs at h1; exact ⟨_, _, h1⟩)

/-- Inversion for the strptime minute reader. -/
theorem readMinK_some {α : Type} (cs : List Char) (k : Nat → List Char → Option α)
    (x : α) (h : readMinK cs k = some x) : ∃ v r, k v r = some x := by
  rcases cs with _ | ⟨a, _ | ⟨b, r⟩⟩
  · exact Option.noConfusion h
  · rw [show readMinK [a] k =
        (if a.isDigit = true then k (charDigit a) [] else Option.none) from rfl] at h
    split_ifs at h
    exact ⟨_, _, h⟩
  · rw [show readMinK (a :: b :: r) k = opOr
        (if a.isDigit = true ∧ b.isDigit = true ∧ charDigit a * 10 + charDigit b ≤ 59 then
          k (charDigit a * 10 + charDigit b) r else Option.none)
        (if a.isDigit = true then k (charDigit a) (b :: r) else Option.none) from rfl] at h
    rcases opOr_some _ _ _ h with h1 | h1 <;> (split_ifs at h1; exact ⟨_, _, h1⟩)

/-- Inversion for the strptime second reader. -/
theorem readSecK_some {α : Type} (cs : List Char) (k : Nat → List Char → Option α)
    (x : α) (h : readSecK cs k = some x) : ∃ v r, k v r = some x := by
  rcases cs with _ | ⟨a, _ | ⟨b, r⟩⟩
  · exact Option.noConfusion h
  · rw [show readSecK [a] k =
        (if a.isDigit = true then k (charDigit a) [] else Option.none) from rfl] at h
    split_ifs at h
    exact ⟨_, _, h⟩
  · rw [show readSecK (a :: b :: r) k = opOr
        (if a.isDigit = true ∧ b.isDigit = true ∧ charDigit a * 10 + charDigit b ≤ 61 then
          k (charDigit a * 10 + charDigit b) r else Option.none)
        (if a.isDigit = true then k (charDigit a) (b :: r) else Option.none) from rfl] at h
    rcases opOr_some _ _ _ h with h1 | h1 <;> (split_ifs at h1; exact ⟨_, _, h1⟩)

/-- Every step-1 format ends in the validating constructor, so its
successes are valid. -/
theorem fmtFull_some (sep : Char) (cs : List Char) (d : DateTime)
    (h : fmtFull sep cs = some d) : ValidB d = true := by
  unfold fmtFull at h
  cases h4 : read4Digits cs with
  | none => rw [h4] at h; exact Option.noConfusion h
  | some p =>
    rw [h4] at h
    simp only [] at h
    obtain ⟨r1, h⟩ := litK_some _ _ _ _ h
    obtain ⟨mo, r2, h⟩ := readMonthK_some _ _ _ h
    obtain ⟨r3, h⟩ := litK_some _ _ _ _ h
    obtain ⟨dy, r4, h⟩ := readDayK_some _ _ _ h
    obtain ⟨r5, h⟩ := spacesK_some _ _ _ h
    obtain ⟨hh, r6, h⟩ := readHourK_some _ _ _ h
    obtain ⟨r7, h⟩ := litK_some _ _ _ _ h
    obtain ⟨mi, r8, h⟩ := readMinK_some _ _ _ h
    obtain ⟨r9, h⟩ := litK_some _ _ _ _ h
    obtain ⟨s, r10, h⟩ := readSecK_some _ _ _ h
    split_ifs at h
    exact mkDT_valid _ _ _ _ _ _ _ h

/-- Successes of the `%Y-%m-%d %H:%M` format are valid. -/
theorem fmtHM_some (sep : Char) (cs : List Char) (d : DateTime)
    (h : fmtHM sep cs = some d) : ValidB d = true := by
  unfold fmtHM at h
  cases h4 : read4Digits cs with
  | none => rw [h4] at h; exact Option.noConfusion h
  | some p =>
    rw [h4] at h
    simp only [] at h
    obtain ⟨r1, h⟩ := litK_some _ _ _ _ h
    obtain ⟨mo, r2, h⟩ := readMonthK_some _ _ _ h
    obtain ⟨r3, h⟩ := litK_some _ _ _ _ h
    obtain ⟨dy, r4, h⟩ := readDayK_some _ _ _ h
    obtain ⟨r5, h⟩ := spacesK_some _ _ _ h
    obtain ⟨hh, r6, h⟩ := readHourK_some _ _ _ h
    obtain ⟨r7, h⟩ := litK_some _ _ _ _ h
    obtain ⟨mi, r8, h⟩ := readMinK_some _ _ _ h
    split_ifs at h
    exact mkDT_valid _ _ _ _ _ _ _ h

/-- Successes of the date-only format are valid. -/
theorem fmtD_some (sep : Char) (cs : List Char) (d : DateTime)
    (h : fmtD sep cs = some d) : ValidB d = true := by
  unfold fmtD at h
  cases h4 : read4Digits cs with
  | none => rw [h4] at h; exact Option.noConfusion h
  | some p =>
    rw [h4] at h
    simp only [] at h
    obtain ⟨r1, h⟩ := litK_some _ _ _ _ h
    obtain ⟨mo, r2, h⟩ := readMonthK_some _ _ _ h
    obtain ⟨r3, h⟩ := litK_some _ _ _ _ h
    obtain ⟨dy, r4, h⟩ := readDayK_some _ _ _ h
    split_ifs at h
    exact mkDT_valid _ _ _ _ _ _ _ h

/-- Step-1 successes are valid datetimes. -/
theorem step1_valid (cs : List Char) (d : DateTime) (h : step1 cs = some d) :
    ValidB d = true := by
  unfold step1 at h
  rcases opOr_some _ _ _ h with h1 | h1
  · exact fmtFull_some '-' cs d h1
  rcases opOr_some _ _ _ h1 with h2 | h2
  · exact fmtHM_some '-' cs d h2
  rcases opOr_some _ _ _ h2 with h3 | h3
  · exact fmtD_some '-' cs d h3
  rcases opOr_some _ _ _ h3 with h4 | h4
  · exact fmtFull_some '/' cs d h4
  rcases opOr_some _ _ _ h4 with h5 | h5
  · exact fmtHM_some '/' cs d h5
  · exact fmtD_some '/' cs d h5

/-- Everything `_parse_relative_date` returns is base's midnight or a
day offset from it. -/
theorem prd_val_inv (cs : List Char) (base : DateTime) (d : DateTime)
    (h : parse_relative_date cs base = .val d) :
    d = midnightOf base ∨ ∃ n, addDays (midnightOf base) n = some d := by
  unfold parse_relative_date parse_relative_date.afterDays parse_relative_date.thisWeek
    liftRaise at h
  simp only [] at h
  repeat' split at h
  all_goals first
    | exact PyResult.noConfusion h
    | exact Or.inl (PyResult.val.inj h).symm
    | (injection h with h2; subst h2; exact Or.inr ⟨_, by assumption⟩)

/-- The date step only produces midnight-derived dates. -/
theorem dateStep_val_inv (cs : List Char) (base : DateTime) (d : DateTime)
    (h : dateStep cs base = .val d) :
    d = midnightOf base ∨ ∃ n, addDays (midnightOf base) n = some d := by
  unfold dateStep at h
  cases hds : dateSearch cs with
  | some g0 =>
    rw [hds] at h
    exact prd_val_inv g0 base d h
  | none =>
    rw [hds] at h
    exact PyResult.noConfusion h

/-- The date step produces valid datetimes from a valid base. -/
theorem dateStep_valid (cs : List Char) (base : DateTime) (d : DateTime)
    (hb : ValidB base = true) (h : dateStep cs base = .val d) : ValidB d = true := by
  rcases dateStep_val_inv cs base d h with rfl | ⟨n, hn⟩
  · exact midnightOf_valid base hb
  · exact addDays_valid _ n d ((validB_iff _).mp (midnightOf_valid base hb)).1 hn

/-- The time-only branch produces valid datetimes from a valid base. -/
theorem timeOnly_valid (base : DateTime) (hh mi : Nat) (d : DateTime)
    (hb : ValidB base = true) (h : timeOnly base hh mi = .val d) : ValidB d = true := by
  unfold timeOnly at h
  cases hr : replaceHMS0 base hh mi with
  | none => rw [hr] at h; exact PyResult.noConfusion h
  | some r =>
    rw [hr] at h
    simp only [] at h
    have hrv := replaceHMS0_valid base hh mi r hb hr
    split_ifs at h with hle
    · exact addDays_valid r 1 d ((validB_iff r).mp hrv).1 (liftRaise_val _ _ h)
    · rw [(PyResult.val.inj h)] at hrv
      exact hrv

/-- Step-5 durations produce valid datetimes from a valid base. -/
theorem step5_valid (cs : List Char) (base : DateTime) (d : DateTime)
    (hb : ValidB base = true) (h : step5 cs base = .val d) : ValidB d = true := by
  unfold step5 step5.minutesBranch liftRaise at h
  repeat' split at h
  all_goals first
    | exact PyResult.noConfusion h
    | (injection h with h2; subst h2;
       first
        | exact addHours_valid base _ _ hb (by assumption)
        | exact addMinutes_valid base _ _ hb (by assumption))

/-- Step-2 bodies produce valid datetimes. -/
theorem step2go_valid (y mo dy : Nat) (rest : List Char) (d : DateTime)
    (h : step2go y mo dy rest = .val d) : ValidB d = true := by
  unfold step2go at h
  cases hmk : mkDT y mo dy 0 0 0 with
  | none => rw [hmk] at h; exact PyResult.noConfusion h
  | some dp =>
    rw [hmk] at h
    have hdp := mkDT_valid _ _ _ _ _ _ _ hmk
    cases ht : parse_time_of_day rest with
    | some p =>
      rw [ht] at h
      exact replaceHM_valid dp p.1 p.2 d hdp (liftRaise_val _ _ h)
    | none =>
      rw [ht] at h
      rw [(PyResult.val.inj h)] at hdp
      exact hdp

/-- Step-3 bodies produce valid datetimes from a valid base. -/
theorem step3go_valid (mo dy : Nat) (rest : List Char) (base : DateTime) (d : DateTime)
    (hb : ValidB base = true) (h : step3go mo dy rest base = .val d) : ValidB d = true := by
  unfold step3go at h
  cases hmd : replaceMD base mo dy with
  | none => rw [hmd] at h; exact PyResult.noConfusion h
  | some dp =>
    rw [hmd] at h
    have hdp := replaceMD_valid base mo dy dp hb hmd
    simp only [] at h
    have hroll : ∀ dp2 : DateTime,
        (if dtLt dp base then replaceYear dp (dp.year + 1) else some dp) = some dp2 →
        ValidB dp2 = true := by
      intro dp2 h2
      split_ifs at h2 with hlt
      · exact replaceYear_valid dp _ dp2 hdp h2
      · exact (Option.some.inj h2) ▸ hdp
    cases h2 : (if dtLt dp base then replaceYear dp (dp.year + 1) else some dp) with
    | none => rw [h2] at h; exact PyResult.noConfusion h
    | some dp2 =>
      rw [h2] at h
      have hdp2 := hroll dp2 h2
      cases ht : parse_time_of_day rest with
      | some p =>
        rw [ht] at h
        exact replaceHM_valid dp2 p.1 p.2 d hdp2 (liftRaise_val _ _ h)
      | none =>
        rw [ht] at h
        rw [(PyResult.val.inj h)] at hdp2
        exact hdp2

/-- Steps 4-5 produce valid datetimes from a valid base. -/
theorem step45_valid (cs : List Char) (base : DateTime) (d : DateTime)
    (hb : ValidB base = true) (h : step45 cs base = .val d) : ValidB d = true := by
  unfold step45 at h
  cases hd : dateStep cs base with
  | raised => rw [hd] at h; exact PyResult.noConfusion h
  | val D =>
    rw [hd] at h
    have hD := dateStep_valid cs base D hb hd
    cases ht : parse_time_of_day cs with
    | some p =>
      rw [ht] at h
      exact replaceHM_valid D p.1 p.2 d hD (liftRaise_val _ _ h)
    | none =>
      rw [ht] at h
      rw [(PyResult.val.inj h)] at hD
      exact hD
  | none =>
    rw [hd] at h
    cases ht : parse_time_of_day cs with
    | some p =>
      rw [ht] at h
      exact timeOnly_valid base p.1 p.2 d hb h
    | none =>
      rw [ht] at h
      exact step5_valid cs base d hb h

/-- Every success of `parse_time` on a valid base is a valid datetime:
all construction paths re-validate through the datetime constructor. -/
theorem parse_time_valid (cs : List Char) (base : DateTime) (d : DateTime)
    (hb : ValidB base = true) (h : parse_time cs base = .val d) : ValidB d = true := by
  unfold parse_time parse_core at h
  split_ifs at h with h0
  cases h1 : step1 (pyStrip cs) with
  | some x =>
    rw [h1] at h
    rw [← (PyResult.val.inj h)]
    exact step1_valid _ x h1
  | none =>
    rw [h1] at h
    cases h2 : matchStep2 (pyStrip cs) with
    | some q =>
      rw [h2] at h
      simp only [] at h
      exact step2go_valid q.1 q.2.1 q.2.2.1 q.2.2.2 d h
    | none =>
      rw [h2] at h
      cases h3 : matchStep3 (pyStrip cs) with
      | some q =>
        rw [h3] at h
        simp only [] at h
        exact step3go_valid q.1 q.2.1 q.2.2 base d hb h
      | none =>
        rw [h3] at h
        exact step45_valid (pyStrip cs) base d hb h

/-- A zero-padded digit character is an ASCII digit. -/
theorem isDigit_pad (x : Nat) (hx : x ≤ 9) : (Char.ofNat (48 + x)).isDigit = true := by
  interval_cases x <;> decide

/-- The numeric value of a zero-padded digit character. -/
theorem charDigit_pad (x : Nat) (hx : x ≤ 9) : charDigit (Char.ofNat (48 + x)) = x := by
  interval_cases x <;> decide

/-- A zero-padded digit character is not whitespace. -/
theorem isSp_pad (x : Nat) (hx : x ≤ 9) : isSp (Char.ofNat (48 + x)) = false := by
  interval_cases x <;> decide

/-- A zero-padded digit character differs from any non-digit character. -/
theorem pad_ne (x : Nat) (t : Char) (hx : x ≤ 9) (ht : t.isDigit = false) :
    ¬ (Char.ofNat (48 + x) = t) := by
  intro he
  rw [← he] at ht
  rw [isDigit_pad x hx] at ht
  cases ht

/-- Value recovered from two padded digit characters. -/
theorem twodigit_value (n : Nat) (hn : n ≤ 99) :
    charDigit (Char.ofNat (48 + n / 10 % 10)) * 10 + charDigit (Char.ofNat (48 + n % 10)) = n := by
  rw [charDigit_pad _ (by omega), charDigit_pad _ (by omega)]
  omega

/-- Rendering `pad2` followed by a tail, as an explicit character list. -/
theorem pad2_append (n : Nat) (r : List Char) :
    pad2 n ++ r = Char.ofNat (48 + n / 10 % 10) :: Char.ofNat (48 + n % 10) :: r := rfl

/-- Shape equation for a literal read on a nonempty list. -/
theorem litK_cons_eq {α : Type} (t c : Char) (r : List Char) (k : List Char → Option α) :
    litK t (c :: r) k = (if c = t then k r else Option.none) := rfl

/-- Shape equation for a literal read on an empty list. -/
theorem litK_nil_eq {α : Type} (t : Char) (k : List Char → Option α) :
    litK t [] k = Option.none := rfl

/-- Shape equation for the whitespace read on a nonempty list. -/
theorem spacesK_cons_eq {α : Type} (c : Char) (r : List Char) (k : List Char → Option α) :
    spacesK (c :: r) k = (if isSp c = true then k (r.dropWhile isSp) else Option.none) := rfl

/-- Shape equation for the month reader on a two-or-more list. -/
theorem readMonthK_cons_eq {α : Type} (a b : Char) (r : List Char)
    (k : Nat → List Char → Option α) :
    readMonthK (a :: b :: r) k = opOr
      (if a.isDigit = true ∧ b.isDigit = true ∧ 1 ≤ charDigit a * 10 + charDigit b ∧
          charDigit a * 10 + charDigit b ≤ 12 then
        k (charDigit a * 10 + charDigit b) r else Option.none)
      (if a.isDigit = true ∧ 1 ≤ charDigit a then k (charDigit a) (b :: r)
        else Option.none) := rfl

/-- Shape equation for the day reader on a two-or-more list. -/
theorem readDayK_cons_eq {α : Type} (a b : Char) (r : List Char)
    (k : Nat → List Char → Option α) :
    readDayK (a :: b :: r) k = opOr
      (if a.isDigit = true ∧ b.isDigit = true ∧ 1 ≤ charDigit a * 10 + charDigit b ∧
          charDigit a * 10 + charDigit b ≤ 31 then
        k (charDigit a * 10 + charDigit b) r else Option.none)
      (if a.isDigit = true ∧ 1 ≤ charDigit a then k (charDigit a) (b :: r)
        else Option.none) := rfl

/-- Shape equation for the hour reader on a two-or-more list. -/
theorem readHourK_cons_eq {α : Type} (a b : Char) (r : List Char)
    (k : Nat → List Char → Option α) :
    readHourK (a :: b :: r) k = opOr
      (if a.isDigit = true ∧ b.isDigit = true ∧ charDigit a * 10 + charDigit b ≤ 23 then
        k (charDigit a * 10 + charDigit b) r else Option.none)
      (if a.isDigit = true then k (charDigit a) (b :: r) else Option.none) := rfl

/-- Shape equation for the minute reader on a two-or-more list. -/
theorem readMinK_cons_eq {α : Type} (a b : Char) (r : List Char)
    (k : Nat → List Char → Option α) :
    readMinK (a :: b :: r) k = opOr
      (if a.isDigit = true ∧ b.isDigit = true ∧ charDigit a * 10 + charDigit b ≤ 59 then
        k (charDigit a * 10 + charDigit b) r else Option.none)
      (if a.isDigit = true then k (charDigit a) (b :: r) else Option.none) := rfl

/-- The formatted display string as an explicit character list. -/
theorem format_explicit (d : DateTime) : format_time (some d) =
    [Char.ofNat (48 + d.year / 100 / 10 % 10), Char.ofNat (48 + d.year / 100 % 10),
     Char.ofNat (48 + d.year % 100 / 10 % 10), Char.ofNat (48 + d.year % 100 % 10), '-',
     Char.ofNat (48 + d.month / 10 % 10), Char.ofNat (48 + d.month % 10), '-',
     Char.ofNat (48 + d.day / 10 % 10), Char.ofNat (48 + d.day % 10), ' ',
     Char.ofNat (48 + d.hour / 10 % 10), Char.ofNat (48 + d.hour % 10), ':',
     Char.ofNat (48 + d.minute / 10 % 10), Char.ofNat (48 + d.minute % 10)] := rfl

/-- The four-digit year reader recovers a year at the head of the
formatted string. -/
theorem read4_pad4 (y : Nat) (hy : y ≤ 9999) (r : List Char) :
    read4Digits (pad4 y ++ r) = some (y, r) := by
  rw [show pad4 y ++ r = Char.ofNat (48 + y / 100 / 10 % 10) ::
      Char.ofNat (48 + y / 100 % 10) :: Char.ofNat (48 + y % 100 / 10 % 10) ::
      Char.ofNat (48 + y % 100 % 10) :: r from rfl,
    read4Digits_cons,
    if_pos ⟨isDigit_pad _ (by omega), isDigit_pad _ (by omega), isDigit_pad _ (by omega),
      isDigit_pad _ (by omega)⟩,
    charDigit_pad _ (by omega), charDigit_pad _ (by omega), charDigit_pad _ (by omega),
    charDigit_pad _ (by omega)]
  have hv : ((y / 100 / 10 % 10 * 10 + y / 100 % 10) * 10 + y % 100 / 10 % 10) * 10 +
      y % 100 % 10 = y := by omega
  rw [hv]

/-- On a formatted display string the `%Y-%m-%d %H:%M` strptime
format reconstructs the instant with seconds truncated. -/
theorem fmtHM_format (d : DateTime) (hv : ValidB d = true) :
    fmtHM '-' (format_time (some d)) = some (truncSec d) := by
  obtain ⟨⟨f1, f2, f3, f4, f5, f6, f7, f8, f9⟩, fy⟩ := (validB_iff d).mp hv
  have hdy31 : d.day ≤ 31 := le_trans f5 (daysInMonth_le _ _)
  unfold fmtHM
  rw [show format_time (some d) = pad4 d.year ++ '-' :: (pad2 d.month ++ '-' ::
      (pad2 d.day ++ ' ' :: (pad2 d.hour ++ ':' :: pad2 d.minute))) from rfl]
  rw [read4_pad4 d.year fy _]
  try simp only []
  rw [litK_cons_eq, if_pos rfl]
  rw [pad2_append, readMonthK_cons_eq,
    if_pos (⟨isDigit_pad _ (by omega), isDigit_pad _ (by omega),
      by rw [twodigit_value d.month (by omega)]; omega,
      by rw [twodigit_value d.month (by omega)]; omega⟩ :
      _ ∧ _ ∧ _ ∧ _),
    twodigit_value d.month (by omega)]
  try simp only []
  rw [litK_cons_eq, if_pos rfl]
  rw [pad2_append, readDayK_cons_eq,
    if_pos (⟨isDigit_pad _ (by omega), isDigit_pad _ (by omega),
      by rw [twodigit_value d.day (by omega)]; omega,
      by rw [twodigit_value d.day (by omega)]; omega⟩ :
      _ ∧ _ ∧ _ ∧ _),
    twodigit_value d.day (by omega)]
  try simp only []
  rw [spacesK_cons_eq, if_pos (by decide : isSp ' ' = true)]
  rw [pad2_append]
  rw [List.dropWhile_cons, if_neg (by
    rw [isSp_pad (d.hour / 10 % 10) (by omega)]
    exact Bool.false_ne_true)]
  rw [readHourK_cons_eq,
    if_pos (⟨isDigit_pad _ (by omega), isDigit_pad _ (by omega),
      by rw [twodigit_value d.hour (by omega)]; omega⟩ : _ ∧ _ ∧ _),
    twodigit_value d.hour (by omega)]
  try simp only []
  rw [litK_cons_eq, if_pos rfl]
  rw [show pad2 d.minute = Char.ofNat (48 + d.minute / 10 % 10) ::
      Char.ofNat (48 + d.minute % 10) :: [] from rfl,
    readMinK_cons_eq,
    if_pos (⟨isDigit_pad _ (by omega), isDigit_pad _ (by omega),
      by rw [twodigit_value d.minute (by omega)]; omega⟩ : _ ∧ _ ∧ _),
    twodigit_value d.minute (by omega)]
  try simp only []
  rw [if_pos trivial]
  unfold mkDT
  rw [if_pos ⟨f1, fy, f2, f3, f4, f5, f6, f7, by omega⟩]
  exact rfl

/-- The seconds-bearing format rejects the formatted display string:
after the minute there is no second field to read. -/
theorem fmtFull_format_none (d : DateTime) (hv : ValidB d = true) :
    fmtFull '-' (format_time (some d)) = Option.none := by
  obtain ⟨⟨f1, f2, f3, f4, f5, f6, f7, f8, f9⟩, fy⟩ := (validB_iff d).mp hv
  cases hfc : fmtFull '-' (format_time (some d)) with
  | none => rfl
  | some x =>
    exfalso
    unfold fmtFull at hfc
    rw [show format_time (some d) = pad4 d.year ++ '-' :: (pad2 d.month ++ '-' ::
        (pad2 d.day ++ ' ' :: (pad2 d.hour ++ ':' :: pad2 d.minute))) from rfl,
      read4_pad4 d.year fy] at hfc
    simp only [] at hfc
    rw [litK_cons_eq, if_pos rfl] at hfc
    rw [pad2_append, readMonthK_cons_eq] at hfc
    rcases opOr_some _ _ _ hfc with h1 | h1
    · split_ifs at h1
      try simp only [] at h1
      rw [litK_cons_eq, if_pos rfl] at h1
      rw [pad2_append, readDayK_cons_eq] at h1
      rcases opOr_some _ _ _ h1 with h2 | h2
      · split_ifs at h2
        try simp only [] at h2
        rw [spacesK_cons_eq, if_pos (by decide : isSp ' ' = true)] at h2
        rw [pad2_append, List.dropWhile_cons, if_neg (by
          rw [isSp_pad (d.hour / 10 % 10) (by omega)]; exact Bool.false_ne_true)] at h2
        rw [readHourK_cons_eq] at h2
        rcases opOr_some _ _ _ h2 with h3 | h3
        · split_ifs at h3
          try simp only [] at h3
          rw [litK_cons_eq, if_pos rfl] at h3
          rw [show pad2 d.minute = Char.ofNat (48 + d.minute / 10 % 10) ::
              Char.ofNat (48 + d.minute % 10) :: [] from rfl, readMinK_cons_eq] at h3
          rcases opOr_some _ _ _ h3 with h4 | h4
          · split_ifs at h4
            try simp only [] at h4
            rw [litK_nil_eq] at h4
            exact Option.noConfusion h4
          · split_ifs at h4
            try simp only [] at h4
            rw [litK_cons_eq] at h4
            split_ifs at h4 with hq
            exact pad_ne (d.minute % 10) ':' (by omega) (by decide) hq
        · split_ifs at h3
          try simp only [] at h3
          rw [litK_cons_eq] at h3
          split_ifs at h3 with hq
          exact pad_ne (d.hour % 10) ':' (by omega) (by decide) hq
      · split_ifs at h2
        try simp only [] at h2
        rw [spacesK_cons_eq] at h2
        split_ifs at h2 with hq
        rw [isSp_pad (d.day % 10) (by omega)] at hq
        exact Bool.false_ne_true hq
    · split_ifs at h1
      try simp only [] at h1
      rw [litK_cons_eq] at h1
      split_ifs at h1 with hq
      exact pad_ne (d.month % 10) '-' (by omega) (by decide) hq

/-- Step 1 on a formatted display string: the seconds format fails and
the `%Y-%m-%d %H:%M` format wins. -/
theorem step1_format (d : DateTime) (hv : ValidB d = true) :
    step1 (format_time (some d)) = some (truncSec d) := by
  unfold step1
  rw [fmtFull_format_none d hv, fmtHM_format d hv]
  rfl

/-- Dropping a leading character that fails the predicate is the
identity. -/
theorem dropWhile_cons_false (p : Char → Bool) (c : Char) (r : List Char) (h : p c = false) :
    List.dropWhile p (c :: r) = c :: r := by
  rw [List.dropWhile_cons, if_neg]
  rw [h]
  exact Bool.false_ne_true

/-- The formatted display string starts and ends with digits, so
stripping leaves it unchanged. -/
theorem pyStrip_format (d : DateTime) :
    pyStrip (format_time (some d)) = format_time (some d) := by
  unfold pyStrip
  rw [format_explicit,
    dropWhile_cons_false isSp _ _ (isSp_pad _ (by omega)),
    show ([Char.ofNat (48 + d.year / 100 / 10 % 10), Char.ofNat (48 + d.year / 100 % 10),
      Char.ofNat (48 + d.year % 100 / 10 % 10), Char.ofNat (48 + d.year % 100 % 10), '-',
      Char.ofNat (48 + d.month / 10 % 10), Char.ofNat (48 + d.month % 10), '-',
      Char.ofNat (48 + d.day / 10 % 10), Char.ofNat (48 + d.day % 10), ' ',
      Char.ofNat (48 + d.hour / 10 % 10), Char.ofNat (48 + d.hour % 10), ':',
      Char.ofNat (48 + d.minute / 10 % 10), Char.ofNat (48 + d.minute % 10)] :
        List Char).reverse =
      [Char.ofNat (48 + d.minute % 10), Char.ofNat (48 + d.minute / 10 % 10), ':',
       Char.ofNat (48 + d.hour % 10), Char.ofNat (48 + d.hour / 10 % 10), ' ',
       Char.ofNat (48 + d.day % 10), Char.ofNat (48 + d.day / 10 % 10), '-',
       Char.ofNat (48 + d.month % 10), Char.ofNat (48 + d.month / 10 % 10), '-',
       Char.ofNat (48 + d.year % 100 % 10), Char.ofNat (48 + d.year % 100 / 10 % 10),
       Char.ofNat (48 + d.year / 100 % 10), Char.ofNat (48 + d.year / 100 / 10 % 10)]
      from rfl,
    dropWhile_cons_false isSp _ _ (isSp_pad _ (by omega))]
  rfl

/-- Claim C10: reparsing the formatted output of a successful parse
succeeds (through the strict `%Y-%m-%d %H:%M` format, for any base) and
reproduces the instant with seconds and microseconds truncated. -/
theorem claim10_format_roundtrip (cs : List Char) (base base2 : DateTime) (d : DateTime)
    (hb : ValidB base = true) (h : parse_time cs base = .val d) :
    parse_time (format_time (some d)) base2 = .val (truncSec d) := by
  have hv := parse_time_valid cs base d hb h
  unfold parse_time parse_core
  rw [pyStrip_format d]
  rw [if_neg (by rw [format_explicit]; exact List.cons_ne_nil _ _),
    step1_format d hv]

/-- Witness for C10 at `3天后` and the reference base. -/
theorem claim10_format_roundtrip_witness :
    ValidB base0 = true ∧
    parse_time "3天后".data base0 = .val ⟨2026, 2, 21, 0, 0, 0, 0⟩ ∧
    parse_time (format_time (some ⟨2026, 2, 21, 0, 0, 0, 0⟩)) base0 =
      .val (truncSec ⟨2026, 2, 21, 0, 0, 0, 0⟩) :=
  ⟨by decide, by decide,
    claim10_format_roundtrip "3天后".data base0 base0 ⟨2026, 2, 21, 0, 0, 0, 0⟩
      (by decide) (by decide)⟩

end TimeParser
